import Mathlib

/-!
smartquery: the matching engines

A shallow embedding of `query.go` and `match.go` of `brnsampson/smartquery`.

* Go's `(bool, error)` results are pairs `Bool × Option GoError`, `none` being `nil`.
* `MatchType` is a Go `int`: every integer is a possible strategy value, six are named.
* The unchecked unwrap of an optional is fatal on an absent value, and so is `==` on
  interface values holding uncomparable data; the generic engine, which calls both,
  therefore returns `Option Result`, `none` standing for the fatal fault.
* Go's zero value of `T` is `default` of an `Inhabited T`. Go's constraint `comparable`
  is the class `Comparable T`, which carries Go's `==`: an operation that may answer
  `false` on a value and itself (the NaN of floats) and may be fatal.
* `regexp.MatchString` belongs to Go's standard library and is a parameter of the
  string engine. Where a result depends on what the engine answers, the engine is
  assumed to behave as Go's on the patterns made of literal characters, `.` and `.*`
  (`AgreesWithGoRegexp`); nothing is assumed about other patterns.
-/

namespace Smartquery

set_option linter.dupNamespace false

/-! ## Results and errors -/

/-- A Go `error` value, identified by its message. -/
structure GoError where
  msg : String
deriving DecidableEq, Repr

/-- A Go `(bool, error)` pair; the error component `none` is `nil`. -/
abbrev Result := Bool × Option GoError

/-- The call `fmt.Errorf(msg)` without formatting verbs. -/
def Errorf (msg : String) : GoError := ⟨msg⟩

/-- The call `fmt.Errorf(format, c)` where `format` ends in the verb `%d`; `pre` is the
text of the format before the verb. -/
def ErrorfInt (pre : String) (c : Int) : GoError := ⟨pre ++ toString c⟩

/-! ## The optional-value collaborator -/

/-- Modelled from the spec: the type `optional.Optional[T]` of the package
`github.com/brnsampson/optional`, which is not part of these sources: a value that is
present (`some v`) or absent (`none`). -/
abbrev Optional (T : Type) := Option T

/-- Modelled from the spec: `optional.NewOption(v)`, the present optional holding `v`. -/
def NewOption {T : Type} (v : T) : Optional T := some v

/-- Modelled from the spec: `optional.None[T]()`, the absent optional. -/
def OptionalNone {T : Type} : Optional T := none

/-- Modelled from the spec: `IsNone()`, the presence test (`isAbsent() -> bool`). -/
def Optional.IsNone {T : Type} (o : Optional T) : Bool :=
  match o with
  | some _ => false
  | none => true

/-- Modelled from the spec: `Clone()`, a copy of the optional (`clone() -> Optional<T>`). -/
def Optional.Clone {T : Type} (o : Optional T) : Optional T := o

/-- Modelled from the spec: `Unwrap()`, which fails if the optional is absent
(`unwrap() -> (T, Error)`); on failure the value returned is Go's zero value. The text of
the failure is the collaborator's own and is never returned by the engines. -/
def Optional.Unwrap {T : Type} [Inhabited T] (o : Optional T) : T × Option GoError :=
  match o with
  | some v => (v, none)
  | none => (default, some ⟨"optional: unwrap of an absent value"⟩)

/-- Modelled from the spec: `UnsafeUnwrap()`, the unchecked unwrap
(`unwrapUnsafe() -> T`, fatal if absent); `none` is the fatal fault. -/
def Optional.UnsafeUnwrap {T : Type} (o : Optional T) : Option T := o

/-! ## Go's comparison -/

/-- Go's constraint `comparable`: the types with an operator `==`. The operator `goEq`
is Go's `==` on `T`; `none` is the run-time panic of comparing interface values whose
dynamic type is not comparable. The operator is symmetric also where it panics; it need
not hold between a value and itself. -/
class Comparable (T : Type) where
  goEq : T → T → Option Bool
  goEq_symm : ∀ a b : T, goEq a b = goEq b a

/-- On the type `T`, `==` never panics and holds exactly between identical values, as it
does on integers and strings. -/
def Comparable.Lawful (T : Type) [Comparable T] [DecidableEq T] : Prop :=
  ∀ a b : T, Comparable.goEq a b = some (decide (a = b))

/-- Go's `==` on `int`. -/
instance instComparableInt : Comparable Int where
  goEq a b := some (decide (a = b))
  goEq_symm a b := by simp [eq_comm]

/-- Go's `==` on `string`. -/
instance instComparableString : Comparable String where
  goEq a b := some (decide (a = b))
  goEq_symm a b := by simp [eq_comm]

/-- The values of Go's `float64` as far as `==` goes: a number, here an integer one, or
NaN. -/
inductive Float64 where
  | num (x : Int)
  | NaN
deriving DecidableEq, Repr

/-- The zero value of `float64`. -/
instance instInhabitedFloat64 : Inhabited Float64 := ⟨Float64.num 0⟩

/-- Go's `==` on `float64`: numbers are compared, NaN is equal to nothing, not even to
itself. -/
instance instComparableFloat64 : Comparable Float64 where
  goEq a b :=
    match a, b with
    | Float64.num x, Float64.num y => some (decide (x = y))
    | _, _ => some false
  goEq_symm a b := by
    cases a <;> cases b <;> simp [eq_comm]

/-- Some values of Go's interface type `any`: the nil interface, an `int`, or a slice
`[]int`, whose type is not comparable. -/
inductive AnyValue where
  | null
  | int (n : Int)
  | ints (l : List Int)
deriving DecidableEq, Repr

/-- The zero value of `any`. -/
instance instInhabitedAnyValue : Inhabited AnyValue := ⟨AnyValue.null⟩

/-- Go's `==` on `any`: values of different dynamic types are unequal, two `int` are
compared, and comparing two slices panics. -/
instance instComparableAnyValue : Comparable AnyValue where
  goEq a b :=
    match a, b with
    | AnyValue.null, AnyValue.null => some true
    | AnyValue.int x, AnyValue.int y => some (decide (x = y))
    | AnyValue.ints _, AnyValue.ints _ => none
    | _, _ => some false
  goEq_symm a b := by
    cases a <;> cases b <;> simp [eq_comm]

/-! ## Strategies -/

/-- The Go type `MatchType int`. -/
abbrev MatchType := Int

/-- Always matches. -/
def MatchAlways : MatchType := 0
/-- True if the set is empty. -/
def MatchNone : MatchType := 1
/-- True if the set is not empty. -/
def MatchAny : MatchType := 2
/-- Intersection not empty; documented as the same as `MatchExact` for single values. -/
def MatchSome : MatchType := 3
/-- Symmetric difference empty. -/
def MatchExact : MatchType := 4
/-- Only valid for strings. -/
def MatchLike : MatchType := 5

/-! ## The generic engine -/

/-- The Go struct `FieldQuery[T]`. -/
structure FieldQuery (T : Type) where
  criteria : MatchType
  value : Optional T

/-- The constructor `NewQuery(matchType, value)`. -/
def NewQuery {T : Type} (matchType : MatchType) (value : Optional T) : FieldQuery T :=
  ⟨matchType, value⟩

/-- The constructor `Always[T]()`. -/
def Always {T : Type} : FieldQuery T := ⟨MatchAlways, OptionalNone⟩

/-- The constructor `None(match)`. -/
def None {T : Type} (m : T) : FieldQuery T := ⟨MatchNone, NewOption m⟩

/-- The constructor `Any(match)`. -/
def Any {T : Type} (m : T) : FieldQuery T := ⟨MatchAny, NewOption m⟩

/-- The constructor `Exact(match)`. -/
def Exact {T : Type} (m : T) : FieldQuery T := ⟨MatchExact, NewOption m⟩

/-- The constructor `Like(match)`. -/
def Like {T : Type} (m : T) : FieldQuery T := ⟨MatchLike, NewOption m⟩

/-- The message of the error returned for `MatchLike` on the generic engine. -/
def likeUnsupportedMsg : String :=
  "QueryError: cannot perform MatchLike matches on generic type. Use StringQuery instead."

/-- The text before `%d` in the error returned for an unsupported strategy. -/
def unsupportedMsg : String := "QueryError: unsupported matching strategy: "

/-- The method `(q *FieldQuery[T]) Matches(value T) (bool, error)`. -/
def FieldQuery.Matches {T : Type} [Comparable T] [Inhabited T]
    (q : FieldQuery T) (value : T) : Option Result :=
  let noneQ := q.value.IsNone
  let tmp := q.value.Clone
  (if !noneQ then tmp.UnsafeUnwrap else some default).bind fun val =>
  let c := q.criteria
  if c = MatchAlways then some (true, none)
  else if c = MatchNone then some (false, none)
  else if c = MatchAny then some (true, none)
  else if c = MatchExact then
    if noneQ then some (false, none)
    else (Comparable.goEq val value).bind fun same =>
      if same then some (true, none)
      else some (false, none)
  else if c = MatchLike then some (false, some (Errorf likeUnsupportedMsg))
  else some (false, some (ErrorfInt unsupportedMsg c))

/-- The method `(q *FieldQuery[T]) MatchesOption(value optional.Optional[T]) (bool, error)`. -/
def FieldQuery.MatchesOption {T : Type} [Comparable T] [Inhabited T]
    (q : FieldQuery T) (value : Optional T) : Option Result :=
  let noneQ := q.value.IsNone
  let tmp := q.value.Clone
  (if !noneQ then tmp.UnsafeUnwrap else some default).bind fun val =>
  let c := q.criteria
  let otherMatchNone := value.IsNone
  let otherMatchAny := !otherMatchNone
  if c = MatchAlways then some (true, none)
  else if (c = MatchNone ∧ otherMatchNone = true) ∨ (c = MatchAny ∧ otherMatchAny = true) then
    some (true, none)
  else if (c = MatchNone ∧ otherMatchAny = true) ∨ (c = MatchAny ∧ otherMatchNone = true) then
    some (false, none)
  else if c = MatchExact then
    let other := value.Clone.Unwrap.1
    if noneQ = true ∧ otherMatchAny = true then some (false, none)
    else if noneQ = true ∧ otherMatchNone = true then some (true, none)
    else if otherMatchNone then some (false, none)
    else (Comparable.goEq val other).bind fun same =>
      if same then some (true, none)
      else some (false, none)
  else if c = MatchLike then some (false, some (Errorf likeUnsupportedMsg))
  else some (false, some (ErrorfInt unsupportedMsg c))

/-! ## The string engine -/

/-- The Go struct `StringQuery`. -/
structure StringQuery where
  criteria : MatchType
  value : Optional String

/-- The constructor `NewStringQuery(matchType, value)`. -/
def NewStringQuery (matchType : MatchType) (value : Optional String) : StringQuery :=
  ⟨matchType, value⟩

/-- The constructor `AlwaysString()`. -/
def AlwaysString : StringQuery := ⟨MatchAlways, OptionalNone⟩

/-- The constructor `NoneString(match)`. -/
def NoneString (m : String) : StringQuery := ⟨MatchNone, NewOption m⟩

/-- The constructor `AnyString(match)`. -/
def AnyString (m : String) : StringQuery := ⟨MatchAny, NewOption m⟩

/-- The constructor `ExactString(match)`. -/
def ExactString (m : String) : StringQuery := ⟨MatchExact, NewOption m⟩

/-- The constructor `LikeString(match)`. -/
def LikeString (m : String) : StringQuery := ⟨MatchLike, NewOption m⟩

/-- Scanning loop of `strings.ReplaceAll` for a non-empty `old`: `skip` counts the
characters of the current occurrence of `old` still to be dropped. -/
def replaceScan (old new : List Char) : Nat → List Char → List Char
  | _, [] => []
  | skip + 1, _ :: cs => replaceScan old new skip cs
  | 0, c :: cs =>
    if old.isPrefixOf (c :: cs) then new ++ replaceScan old new (old.length - 1) cs
    else c :: replaceScan old new 0 cs

/-- The standard-library function `strings.ReplaceAll(s, old, new)`: every
non-overlapping occurrence of `old`, from the left, is replaced by `new`; an empty `old`
matches before every character and at the end. -/
def ReplaceAll (s old new : String) : String :=
  if old.data = [] then
    ⟨(s.data.flatMap fun c => new.data ++ [c]) ++ new.data⟩
  else ⟨replaceScan old.data new.data 0 s.data⟩

/-- The pattern handed to the regular-expression engine by the `MatchLike` branch. -/
def likePattern (test : String) : String :=
  ReplaceAll (ReplaceAll test "%" ".*") "_" "."

/-- The `MatchLike` branch on a present criterion `test` and a present candidate `value`;
`MatchString` is `regexp.MatchString`. -/
def likeBranch (MatchString : String → String → Result) (test value : String) : Result :=
  let tmp := ReplaceAll test "%" ".*"
  let tmp := ReplaceAll tmp "_" "."
  let r := MatchString tmp value
  if r.2 ≠ none then (false, r.2) else (r.1, none)

/-- The method `(q *StringQuery) Matches(value string) (bool, error)`; `MatchString` is
`regexp.MatchString`. -/
def StringQuery.Matches (MatchString : String → String → Result)
    (q : StringQuery) (value : String) : Result :=
  let c := q.criteria
  let tmp := q.value.Clone
  let r := tmp.Unwrap
  let test := r.1
  if r.2 ≠ none then
    if c = MatchAlways then (true, none)
    else if c = MatchNone then (false, none)
    else if c = MatchAny then (true, none)
    else if c = MatchExact then (false, none)
    else if c = MatchLike then (false, none)
    else (false, some (ErrorfInt unsupportedMsg c))
  else if c = MatchAlways then (true, none)
  else if c = MatchNone then (false, none)
  else if c = MatchAny then (true, none)
  else if c = MatchExact then
    if test = value then (true, none) else (false, none)
  else if c = MatchLike then likeBranch MatchString test value
  else (false, some (ErrorfInt unsupportedMsg c))

/-- The method `(q *StringQuery) MatchesOption(value optional.Optional[string]) (bool, error)`;
`MatchString` is `regexp.MatchString`. -/
def StringQuery.MatchesOption (MatchString : String → String → Result)
    (q : StringQuery) (value : Optional String) : Result :=
  let c := q.criteria
  let tmp := q.value.Clone
  let r := tmp.Unwrap
  let test := r.1
  let otherMatchNone := value.IsNone
  if r.2 ≠ none then
    if c = MatchAlways then (true, none)
    else if c = MatchNone then (otherMatchNone, none)
    else if c = MatchAny then (!otherMatchNone, none)
    else if c = MatchExact then (otherMatchNone, none)
    else if c = MatchLike then (otherMatchNone, none)
    else (false, some (ErrorfInt unsupportedMsg c))
  else
    let r2 := value.Clone.Unwrap
    let other := r2.1
    if r2.2 ≠ none then
      if c = MatchAlways then (true, none)
      else if c = MatchNone then (true, none)
      else if c = MatchAny then (false, none)
      else if c = MatchExact then (false, none)
      else if c = MatchLike then (false, none)
      else (false, some (ErrorfInt unsupportedMsg c))
    else if c = MatchAlways then (true, none)
    else if c = MatchNone then (false, none)
    else if c = MatchAny then (true, none)
    else if c = MatchExact then
      if test = other then (true, none) else (false, none)
    else if c = MatchLike then likeBranch MatchString test other
    else (false, some (ErrorfInt unsupportedMsg c))

/-! ## Predicates and their conjunction -/

/-- The Go interface `Query[T]`: the two entry points shared by the engines. -/
structure Query (T : Type) where
  Matches : T → Option Result
  MatchesOption : Optional T → Option Result

/-- A `*FieldQuery[T]` seen through the interface `Query[T]`. -/
def FieldQuery.AsRef {T : Type} [Comparable T] [Inhabited T] (q : FieldQuery T) : Query T :=
  ⟨q.Matches, q.MatchesOption⟩

/-- A `*StringQuery` seen through the interface `Query[string]`; the string engine has
no fatal path. -/
def StringQuery.AsRef (MatchString : String → String → Result) (q : StringQuery) :
    Query String :=
  ⟨fun v => some (q.Matches MatchString v), fun o => some (q.MatchesOption MatchString o)⟩

/-- The Go interface `Matcher`: a value with a method `Match() (bool, error)`. -/
structure Matcher where
  Match : Unit → Option Result

/-- The Go struct `Match[T]`. -/
structure Match (T : Type) where
  query : Query T
  operand : Optional T

/-- The method `(m Match[T]) Match() (bool, error)`. -/
def Match.Match {T : Type} (m : Match T) : Option Result :=
  m.query.MatchesOption m.operand

/-- The constructor `NewValueMatch(operand, query)`. -/
def NewValueMatch {T : Type} (operand : T) (query : Query T) : Matcher :=
  ⟨fun _ => (Match.mk query (NewOption operand)).Match⟩

/-- The constructor `NewMatch(operand, query)`. -/
def NewMatch {T : Type} (operand : Optional T) (query : Query T) : Matcher :=
  ⟨fun _ => (Match.mk query operand).Match⟩

/-- The function `MatchAll(matches []Matcher) (bool, error)`. -/
def MatchAll : List Matcher → Option Result
  | [] => some (true, none)
  | m :: ms =>
    (m.Match ()).bind fun r =>
    if r.2 ≠ none then some (false, r.2)
    else if r.1 = false then some (false, none)
    else MatchAll ms

/-- The loop of `MatchAll` once more, returning besides its result the number of
matchers whose method `Match` it has called. -/
def MatchAllCounted : List Matcher → Option Result × Nat
  | [] => (some (true, none), 0)
  | m :: ms =>
    match m.Match () with
    | none => (none, 1)
    | some r =>
      if r.2 ≠ none then (some (false, r.2), 1)
      else if r.1 = false then (some (false, none), 1)
      else ((MatchAllCounted ms).1, (MatchAllCounted ms).2 + 1)

/-- A matcher whose evaluation ends in a fatal fault. -/
def fatalMatcher : Matcher := ⟨fun _ => none⟩

/-! ## The wildcard translation, character by character -/

/-- The substitution of one criterion character in the spec's words: `%` becomes `.*`,
`_` becomes `.`, every other character is kept as it is. -/
def substChar (c : Char) : List Char :=
  if c = '%' then ['.', '*'] else if c = '_' then ['.'] else [c]

/-- The translation in the spec's words: the substitutions of the characters of the
criterion, concatenated in order. It is compared with `likePattern`, the translation of
the code. -/
def translateCharwise (test : String) : String := ⟨test.data.flatMap substChar⟩

/-! ## The regular-expression engine on the patterns of Like

`regexp.MatchString` is Go's standard library. What follows describes it, with Go's
default flags, on the patterns a criterion without regular-expression metacharacters is
translated to: sequences of literal characters, `.` and `.*`. There `.` stands for one
character other than the newline, `.*` for any run of such characters, and the pattern
may match anywhere in the text. -/

/-- The characters with a special meaning in a regular expression, those escaped by
`regexp.QuoteMeta`. -/
def isRegexpMeta (c : Char) : Bool := decide (c ∈ "\\.+*?()|[]\x7b\x7d^$".data)

/-- A criterion character that is neither a wildcard nor a metacharacter. -/
def isPlainChar (c : Char) : Bool := !isRegexpMeta c && c != '%' && c != '_'

/-- A string free of wildcards and of metacharacters. -/
def isPlain (p : String) : Bool := p.data.all isPlainChar

/-- A string free of metacharacters; the wildcards `%` and `_` may occur. -/
def isMetaFree (p : String) : Bool := p.data.all fun c => !isRegexpMeta c

/-- The atoms of a pattern of the fragment. -/
inductive Tok where
  | lit (c : Char)
  | dot
  | dotStar
deriving DecidableEq, Repr

/-- One step of reading a pattern from the left; the atoms read so far are kept in
reverse. A `*` turns a preceding `.` into `.*`; any other use of a metacharacter leaves
the fragment (`none`). -/
def parseStep (acc : Option (List Tok)) (c : Char) : Option (List Tok) :=
  acc.bind fun ts =>
    if c = '*' then
      match ts with
      | Tok.dot :: r => some (Tok.dotStar :: r)
      | _ => none
    else if c = '.' then some (Tok.dot :: ts)
    else if isRegexpMeta c then none
    else some (Tok.lit c :: ts)

/-- The atoms of a pattern, `none` when the pattern is outside the fragment. -/
def parsePattern (pattern : List Char) : Option (List Tok) :=
  (pattern.foldl parseStep (some [])).map List.reverse

/-- The atom `.*` followed by the rest `k` of the pattern: `k` matches here, or one
character other than the newline is consumed first. -/
def starAny (k : List Char → Bool) : List Char → Bool
  | [] => k []
  | x :: xs => k (x :: xs) || (x != Char.ofNat 10 && starAny k xs)

/-- Whether the atoms match a prefix of the text. -/
def matchHere : List Tok → List Char → Bool
  | [] => fun _ => true
  | Tok.lit c :: ts => fun s =>
    match s with
    | [] => false
    | x :: xs => decide (c = x) && matchHere ts xs
  | Tok.dot :: ts => fun s =>
    match s with
    | [] => false
    | x :: xs => x != Char.ofNat 10 && matchHere ts xs
  | Tok.dotStar :: ts => fun s => starAny (matchHere ts) s

/-- Whether the atoms match somewhere in the text (unanchored match). -/
def matchAnywhere (toks : List Tok) : List Char → Bool
  | [] => matchHere toks []
  | x :: xs => matchHere toks (x :: xs) || matchAnywhere toks xs

/-- The atom a criterion character is translated to. -/
def tokOfChar (c : Char) : Tok :=
  if c = '%' then Tok.dotStar else if c = '_' then Tok.dot else Tok.lit c

/-- An engine behaves as Go's `regexp.MatchString` on the fragment: a pattern of the
fragment compiles, and the result is the unanchored match of its atoms. -/
def AgreesWithGoRegexp (MatchString : String → String → Result) : Prop :=
  ∀ (pattern s : String) (toks : List Tok),
    parsePattern pattern.data = some toks →
      MatchString pattern s = (matchAnywhere toks s.data, none)

/-- An engine that agrees with Go's on the fragment. Patterns outside the fragment are
not described: this engine reports them with an error of its own. -/
def fragmentMatchString (pattern s : String) : Result :=
  match parsePattern pattern.data with
  | some toks => (matchAnywhere toks s.data, none)
  | none => (false, some ⟨"regexp: pattern outside the described fragment"⟩)

/-- An engine that rejects every pattern. -/
def rejectingMatchString (_pattern _s : String) : Result :=
  (false, some ⟨"error parsing regexp"⟩)

/-- A host-defined implementation of the interface `Query[int]`, which `NewMatch` and
`NewValueMatch` accept like any other: both entry points return `(true, err)`. -/
def hostQuery : Query Int :=
  ⟨fun _ => some (true, some ⟨"host error"⟩), fun _ => some (true, some ⟨"host error"⟩)⟩

end Smartquery

namespace Smartquery

/-! ## Unfolding lemmas for the collaborator -/

@[simp] theorem isNone_none {T : Type} : Optional.IsNone (none : Optional T) = true := rfl

@[simp] theorem isNone_some {T : Type} (v : T) : Optional.IsNone (some v : Optional T) = false :=
  rfl

@[simp] theorem clone_eq {T : Type} (o : Optional T) : Optional.Clone o = o := rfl

@[simp] theorem unsafeUnwrap_eq {T : Type} (o : Optional T) : Optional.UnsafeUnwrap o = o := rfl

@[simp] theorem unwrap_some {T : Type} [Inhabited T] (v : T) :
    Optional.Unwrap (some v : Optional T) = (v, none) := rfl

@[simp] theorem unwrap_none_fst {T : Type} [Inhabited T] :
    (Optional.Unwrap (none : Optional T)).1 = default := rfl

@[simp] theorem unwrap_none_snd_ne {T : Type} [Inhabited T] :
    ((Optional.Unwrap (none : Optional T)).2 = none) = False := by
  simp [Optional.Unwrap]

/-! ## Unfolding lemmas for Go's comparison -/

@[simp] theorem goEq_int (a b : Int) : Comparable.goEq a b = some (decide (a = b)) := rfl

@[simp] theorem goEq_string (a b : String) : Comparable.goEq a b = some (decide (a = b)) :=
  rfl

/-- On `int`, `==` is lawful. -/
theorem lawful_int : Comparable.Lawful Int := fun _ _ => rfl

/-- On `string`, `==` is lawful. -/
theorem lawful_string : Comparable.Lawful String := fun _ _ => rfl

/-- On `float64`, NaN is not equal to itself. -/
theorem goEq_nan : Comparable.goEq Float64.NaN Float64.NaN = some false := rfl

/-- On `any`, comparing two slices is fatal. -/
theorem goEq_ints (l1 l2 : List Int) :
    Comparable.goEq (AnyValue.ints l1) (AnyValue.ints l2) = none := rfl

/-! ## The Exact strategy on optional candidates -/

/-- The Exact branch of the generic `MatchesOption`, for every comparable type: two absent
sides match, one absent side does not, and two present values are compared with `==`,
whose panic is fatal. -/
theorem exact_matchesOption_cases {T : Type} [Comparable T] [Inhabited T] (v w : T) :
    (NewQuery MatchExact (none : Optional T)).MatchesOption none = some (true, none) ∧
    (NewQuery MatchExact (none : Optional T)).MatchesOption (some w) = some (false, none) ∧
    (NewQuery MatchExact (some v)).MatchesOption none = some (false, none) ∧
    (NewQuery MatchExact (some v)).MatchesOption (some w) =
      (Comparable.goEq v w).map fun same => (same, none) := by
  refine ⟨?_, ?_, ?_, ?_⟩
  · simp [FieldQuery.MatchesOption, NewQuery, MatchExact, MatchAlways, MatchNone, MatchAny]
  · simp [FieldQuery.MatchesOption, NewQuery, MatchExact, MatchAlways, MatchNone, MatchAny]
  · simp [FieldQuery.MatchesOption, NewQuery, MatchExact, MatchAlways, MatchNone, MatchAny]
  · cases h : Comparable.goEq v w with
    | none =>
      simp [FieldQuery.MatchesOption, NewQuery, MatchExact, MatchAlways, MatchNone, MatchAny, h]
    | some same =>
      cases same <;>
        simp [FieldQuery.MatchesOption, NewQuery, MatchExact, MatchAlways, MatchNone,
          MatchAny, h]

/-- C1, as the code has it: on a type whose `==` never panics and holds exactly between
identical values, as on integers and strings, `MatchesOption` with strategy Exact returns
`(b, nil)` where `b` is true exactly when criterion and candidate are both absent, or
both present with equal values; so does the string engine. On every comparable type, two
absent sides give `(true, nil)`, one absent side gives `(false, nil)`, so that a present
criterion holding the zero value does not match an absent candidate, and two present
values give the answer of `==` on them when it does not panic. -/
theorem exact_matchesOption_iff {T : Type} [Comparable T] [DecidableEq T] [Inhabited T]
    (MatchString : String → String → Result) (hT : Comparable.Lawful T)
    (c d : Optional T) (cs ds : Optional String) (v w : T) :
    (∃ b, (NewQuery MatchExact c).MatchesOption d = some (b, none) ∧
        (b = true ↔ (c = none ∧ d = none) ∨ ∃ u, c = some u ∧ d = some u)) ∧
    (∃ b, (NewStringQuery MatchExact cs).MatchesOption MatchString ds = (b, none) ∧
        (b = true ↔ (cs = none ∧ ds = none) ∨ ∃ u, cs = some u ∧ ds = some u)) ∧
    (NewQuery MatchExact (some (default : T))).MatchesOption none = some (false, none) ∧
    (NewStringQuery MatchExact (some "")).MatchesOption MatchString none = (false, none) ∧
    (NewQuery MatchExact (none : Optional T)).MatchesOption none = some (true, none) ∧
    (NewQuery MatchExact (none : Optional T)).MatchesOption (some w) = some (false, none) ∧
    (NewQuery MatchExact (some v)).MatchesOption none = some (false, none) ∧
    (NewQuery MatchExact (some v)).MatchesOption (some w) =
      (Comparable.goEq v w).map fun same => (same, none) := by
  obtain ⟨g1, g2, g3, g4⟩ := exact_matchesOption_cases v w
  refine ⟨?_, ?_, (exact_matchesOption_cases (default : T) w).2.2.1, ?_, g1, g2, g3, g4⟩
  · cases c with
    | none =>
      cases d with
      | none => exact ⟨true, (exact_matchesOption_cases v w).1, by simp⟩
      | some y => exact ⟨false, (exact_matchesOption_cases v y).2.1, by simp⟩
    | some x =>
      cases d with
      | none => exact ⟨false, (exact_matchesOption_cases x w).2.2.1, by simp⟩
      | some y =>
        refine ⟨decide (x = y), ?_, by simp [eq_comm]⟩
        rw [(exact_matchesOption_cases x y).2.2.2, hT x y]
        rfl
  · cases cs with
    | none =>
      cases ds with
      | none =>
        exact ⟨true, by simp [StringQuery.MatchesOption, NewStringQuery, MatchExact,
          MatchAlways, MatchNone, MatchAny], by simp⟩
      | some y =>
        exact ⟨false, by simp [StringQuery.MatchesOption, NewStringQuery, MatchExact,
          MatchAlways, MatchNone, MatchAny], by simp⟩
    | some x =>
      cases ds with
      | none =>
        exact ⟨false, by simp [StringQuery.MatchesOption, NewStringQuery, MatchExact,
          MatchAlways, MatchNone, MatchAny], by simp⟩
      | some y =>
        by_cases h : x = y
        · exact ⟨true, by simp [StringQuery.MatchesOption, NewStringQuery, MatchExact,
            MatchAlways, MatchNone, MatchAny, h], by simp [h]⟩
        · exact ⟨false, by simp [StringQuery.MatchesOption, NewStringQuery, MatchExact,
            MatchAlways, MatchNone, MatchAny, h], by simp [Ne.symm h]⟩
  · simp [StringQuery.MatchesOption, NewStringQuery, MatchExact, MatchAlways, MatchNone,
      MatchAny]

/-- C1 on integers, where `==` is lawful: the Exact query for 47 matches the present
candidate 47. -/
theorem exact_matchesOption_iff_witness :
    Comparable.Lawful Int ∧
    ∃ b, (NewQuery MatchExact (some (47 : Int))).MatchesOption (some 47) = some (b, none) ∧
      (b = true ↔ ((some (47 : Int) : Optional Int) = none ∧
        (some (47 : Int) : Optional Int) = none) ∨
        ∃ u, (some (47 : Int) : Optional Int) = some u ∧
          (some (47 : Int) : Optional Int) = some u) :=
  ⟨lawful_int,
    (exact_matchesOption_iff fragmentMatchString lawful_int (some (47 : Int)) (some 47) none
      none 0 0).1⟩

/-- C1 fails as stated for a comparable type such as `float64`: with criterion and
candidate both present and both NaN, `MatchesOption` with strategy Exact returns
`(false, nil)`. It fails also for `any`: with criterion and candidate both holding the
slice `[1]`, the comparison panics and no `(b, nil)` is returned. -/
theorem exact_matchesOption_nan :
    (NewQuery MatchExact (some Float64.NaN)).MatchesOption (some Float64.NaN) =
      some (false, none) ∧
    (NewQuery MatchExact (some (AnyValue.ints [1]))).MatchesOption
      (some (AnyValue.ints [1])) = none := by
  constructor
  · rw [(exact_matchesOption_cases Float64.NaN Float64.NaN).2.2.2, goEq_nan]
    rfl
  · rw [(exact_matchesOption_cases (AnyValue.ints [1]) (AnyValue.ints [1])).2.2.2, goEq_ints]
    rfl

/-! ## The None, Any and Always strategies on optional candidates -/

/-- C2: for both engines, `MatchesOption` with strategy None returns `(b, nil)` where `b`
is true exactly when the candidate is absent, whatever the criterion is; so
`None(v).MatchesOption(absent)` is true and `None(v).MatchesOption(present(w))` is false. -/
theorem none_matchesOption_iff {T : Type} [Comparable T] [Inhabited T]
    (MatchString : String → String → Result) (c d : Optional T) (cs ds : Optional String)
    (v w : T) (sv sw : String) :
    (∃ b, (NewQuery MatchNone c).MatchesOption d = some (b, none) ∧ (b = true ↔ d = none)) ∧
    (∃ b, (NewStringQuery MatchNone cs).MatchesOption MatchString ds = (b, none) ∧
        (b = true ↔ ds = none)) ∧
    (None v).MatchesOption none = some (true, none) ∧
    (None v).MatchesOption (some w) = some (false, none) ∧
    (NoneString sv).MatchesOption MatchString none = (true, none) ∧
    (NoneString sv).MatchesOption MatchString (some sw) = (false, none) := by
  refine ⟨?_, ?_, ?_, ?_, ?_, ?_⟩
  · cases c <;> cases d <;>
      simp [FieldQuery.MatchesOption, NewQuery, MatchNone, MatchAlways, MatchAny]
  · cases cs <;> cases ds <;>
      simp [StringQuery.MatchesOption, NewStringQuery, MatchNone, MatchAlways, MatchAny]
  · simp [FieldQuery.MatchesOption, None, NewOption, MatchNone, MatchAlways, MatchAny]
  · simp [FieldQuery.MatchesOption, None, NewOption, MatchNone, MatchAlways, MatchAny,
      MatchExact, MatchLike]
  · simp [StringQuery.MatchesOption, NoneString, NewOption, MatchNone, MatchAlways, MatchAny]
  · simp [StringQuery.MatchesOption, NoneString, NewOption, MatchNone, MatchAlways, MatchAny]

/-- C3, as the code has it: on the generic engine `MatchesOption` with strategy None
returns `(true, nil)` for an absent candidate, whether the criterion is absent or present,
and `(false, nil)` for a present candidate, whether the criterion is absent or present. -/
theorem none_matchesOption_generic_table {T : Type} [Comparable T] [Inhabited T]
    (v w : T) :
    (NewQuery MatchNone (none : Optional T)).MatchesOption none = some (true, none) ∧
    (NewQuery MatchNone (none : Optional T)).MatchesOption (some w) = some (false, none) ∧
    (NewQuery MatchNone (some v)).MatchesOption none = some (true, none) ∧
    (NewQuery MatchNone (some v)).MatchesOption (some w) = some (false, none) := by
  refine ⟨?_, ?_, ?_, ?_⟩ <;>
    simp [FieldQuery.MatchesOption, NewQuery, MatchNone, MatchAlways, MatchAny]

/-- C3 fails as stated: with the present criterion 42 and an absent candidate, the generic
`MatchesOption` with strategy None returns `(true, nil)`, not `(false, nil)`. -/
theorem none_matchesOption_generic_present_absent :
    (None (42 : Int)).MatchesOption none = some (true, none) ∧
    ¬ ((None (42 : Int)).MatchesOption none = some (false, none)) := by
  constructor <;> simp [FieldQuery.MatchesOption, None, NewOption, MatchNone, MatchAlways,
    MatchAny]

/-- C4: for both engines, `MatchesOption` with strategy Any returns `(b, nil)` where `b`
is true exactly when the candidate is present, whatever the criterion is. -/
theorem any_matchesOption_iff {T : Type} [Comparable T] [Inhabited T]
    (MatchString : String → String → Result) (c d : Optional T) (cs ds : Optional String) :
    (∃ b, (NewQuery MatchAny c).MatchesOption d = some (b, none) ∧
        (b = true ↔ ∃ w, d = some w)) ∧
    (∃ b, (NewStringQuery MatchAny cs).MatchesOption MatchString ds = (b, none) ∧
        (b = true ↔ ∃ w, ds = some w)) := by
  refine ⟨?_, ?_⟩
  · cases c <;> cases d <;>
      simp [FieldQuery.MatchesOption, NewQuery, MatchNone, MatchAlways, MatchAny]
  · cases cs <;> cases ds <;>
      simp [StringQuery.MatchesOption, NewStringQuery, MatchNone, MatchAlways, MatchAny]

/-- C5: for both engines, with strategy Always, `Matches(v)` and `MatchesOption(d)` return
`(true, nil)` for every value, every optional candidate and every stored criterion. -/
theorem always_matches {T : Type} [Comparable T] [Inhabited T]
    (MatchString : String → String → Result) (c d : Optional T) (v : T)
    (cs ds : Optional String) (sv : String) :
    (NewQuery MatchAlways c).Matches v = some (true, none) ∧
    (NewQuery MatchAlways c).MatchesOption d = some (true, none) ∧
    (NewStringQuery MatchAlways cs).Matches MatchString sv = (true, none) ∧
    (NewStringQuery MatchAlways cs).MatchesOption MatchString ds = (true, none) ∧
    (Always : FieldQuery T).Matches v = some (true, none) ∧
    (Always : FieldQuery T).MatchesOption d = some (true, none) ∧
    AlwaysString.Matches MatchString sv = (true, none) ∧
    AlwaysString.MatchesOption MatchString ds = (true, none) := by
  refine ⟨?_, ?_, ?_, ?_, ?_, ?_, ?_, ?_⟩
  · cases c <;> simp [FieldQuery.Matches, NewQuery, MatchAlways]
  · cases c <;> simp [FieldQuery.MatchesOption, NewQuery, MatchAlways]
  · cases cs <;> simp [StringQuery.Matches, NewStringQuery, MatchAlways]
  · cases cs <;> cases ds <;> simp [StringQuery.MatchesOption, NewStringQuery, MatchAlways]
  · simp [FieldQuery.Matches, Always, OptionalNone, MatchAlways]
  · simp [FieldQuery.MatchesOption, Always, OptionalNone, MatchAlways]
  · simp [StringQuery.Matches, AlwaysString, OptionalNone, MatchAlways]
  · cases ds <;> simp [StringQuery.MatchesOption, AlwaysString, OptionalNone, MatchAlways]

/-! ## Definite candidates -/

/-- The Exact branch of the generic `Matches`, for every comparable type: an absent
criterion does not match, and a present one is compared with the candidate by `==`,
whose panic is fatal. -/
theorem exact_matches_cases {T : Type} [Comparable T] [Inhabited T] (v w : T) :
    (NewQuery MatchExact (none : Optional T)).Matches w = some (false, none) ∧
    (NewQuery MatchExact (some v)).Matches w =
      ((Comparable.goEq v w).map fun same => (same, none)) ∧
    (Exact v).Matches w = (Comparable.goEq v w).map fun same => (same, none) := by
  refine ⟨?_, ?_, ?_⟩
  · simp [FieldQuery.Matches, NewQuery, MatchExact, MatchAlways, MatchNone, MatchAny]
  · cases h : Comparable.goEq v w with
    | none =>
      simp [FieldQuery.Matches, NewQuery, MatchExact, MatchAlways, MatchNone, MatchAny, h]
    | some same =>
      cases same <;>
        simp [FieldQuery.Matches, NewQuery, MatchExact, MatchAlways, MatchNone, MatchAny, h]
  · cases h : Comparable.goEq v w with
    | none =>
      simp [FieldQuery.Matches, Exact, NewOption, MatchExact, MatchAlways, MatchNone,
        MatchAny, h]
    | some same =>
      cases same <;>
        simp [FieldQuery.Matches, Exact, NewOption, MatchExact, MatchAlways, MatchNone,
          MatchAny, h]

/-- C6, as the code has it: on a type whose `==` never panics and holds exactly between
identical values, as on integers and strings, `Matches(w)` with strategy Exact returns
`(b, nil)` where `b` is true exactly when the criterion is present and holds `w`, so
that `Exact(v).Matches(v)` is true and `Exact(v).Matches(w)` is true only for `w = v`;
so does the string engine, and `ExactString`. On every comparable type, an absent
criterion gives `(false, nil)` and a present one the answer of `==` on criterion and
candidate when it does not panic. -/
theorem exact_matches_iff {T : Type} [Comparable T] [DecidableEq T] [Inhabited T]
    (MatchString : String → String → Result) (hT : Comparable.Lawful T) (c : Optional T)
    (v w : T) (cs : Optional String) (sv sw : String) :
    (∃ b, (NewQuery MatchExact c).Matches w = some (b, none) ∧ (b = true ↔ c = some w)) ∧
    (∃ b, (NewStringQuery MatchExact cs).Matches MatchString sw = (b, none) ∧
        (b = true ↔ cs = some sw)) ∧
    (Exact v).Matches v = some (true, none) ∧
    (∃ b, (Exact v).Matches w = some (b, none) ∧ (b = true ↔ w = v)) ∧
    (ExactString sv).Matches MatchString sv = (true, none) ∧
    (∃ b, (ExactString sv).Matches MatchString sw = (b, none) ∧ (b = true ↔ sw = sv)) ∧
    (NewQuery MatchExact (none : Optional T)).Matches w = some (false, none) ∧
    (NewQuery MatchExact (some v)).Matches w =
      (Comparable.goEq v w).map fun same => (same, none) := by
  obtain ⟨g1, g2, g3⟩ := exact_matches_cases v w
  refine ⟨?_, ?_, ?_, ?_, ?_, ?_, g1, g2⟩
  · cases c with
    | none => exact ⟨false, g1, by simp⟩
    | some u =>
      refine ⟨decide (u = w), ?_, by simp⟩
      rw [(exact_matches_cases u w).2.1, hT u w]
      rfl
  · cases cs with
    | none =>
      simp [StringQuery.Matches, NewStringQuery, MatchExact, MatchAlways, MatchNone, MatchAny]
    | some u =>
      by_cases h : u = sw <;>
        simp [StringQuery.Matches, NewStringQuery, MatchExact, MatchAlways, MatchNone,
          MatchAny, h]
  · rw [(exact_matches_cases v v).2.2, hT v v]
    simp
  · refine ⟨decide (v = w), ?_, by simp [eq_comm]⟩
    rw [g3, hT v w]
    rfl
  · simp [StringQuery.Matches, ExactString, NewOption, MatchExact, MatchAlways, MatchNone,
      MatchAny]
  · by_cases h : sv = sw
    · simp [StringQuery.Matches, ExactString, NewOption, MatchExact, MatchAlways, MatchNone,
        MatchAny, h]
    · simp [StringQuery.Matches, ExactString, NewOption, MatchExact, MatchAlways, MatchNone,
        MatchAny, h, Ne.symm h]

/-- C6 on integers, where `==` is lawful: `Exact(47).Matches(47)` is true. -/
theorem exact_matches_iff_witness :
    Comparable.Lawful Int ∧ (Exact (47 : Int)).Matches 47 = some (true, none) :=
  ⟨lawful_int,
    (exact_matches_iff fragmentMatchString lawful_int none (47 : Int) 42 none "" "").2.2.1⟩

/-- C6 fails as stated for a comparable type such as `float64`: `Exact(NaN).Matches(NaN)`
returns `(false, nil)`. It fails also for `any`: with criterion and candidate both
holding the slice `[1]`, the comparison panics and no `(b, nil)` is returned. -/
theorem exact_matches_nan :
    (Exact Float64.NaN).Matches Float64.NaN = some (false, none) ∧
    (Exact (AnyValue.ints [1])).Matches (AnyValue.ints [1]) = none := by
  constructor
  · rw [(exact_matches_cases Float64.NaN Float64.NaN).2.2, goEq_nan]
    rfl
  · rw [(exact_matches_cases (AnyValue.ints [1]) (AnyValue.ints [1])).2.2, goEq_ints]
    rfl

/-- C7: for both engines, for every criterion and every definite candidate `w`,
`Matches(w)` returns `(false, nil)` with strategy None and `(true, nil)` with strategy
Any. -/
theorem none_any_matches {T : Type} [Comparable T] [Inhabited T]
    (MatchString : String → String → Result) (c : Optional T) (w : T)
    (cs : Optional String) (sw : String) :
    (NewQuery MatchNone c).Matches w = some (false, none) ∧
    (NewQuery MatchAny c).Matches w = some (true, none) ∧
    (NewStringQuery MatchNone cs).Matches MatchString sw = (false, none) ∧
    (NewStringQuery MatchAny cs).Matches MatchString sw = (true, none) := by
  refine ⟨?_, ?_, ?_, ?_⟩
  · cases c <;> simp [FieldQuery.Matches, NewQuery, MatchNone, MatchAlways]
  · cases c <;> simp [FieldQuery.Matches, NewQuery, MatchNone, MatchAlways, MatchAny]
  · cases cs <;> simp [StringQuery.Matches, NewStringQuery, MatchNone, MatchAlways]
  · cases cs <;> simp [StringQuery.Matches, NewStringQuery, MatchNone, MatchAlways, MatchAny]

/-! ## The Some strategy -/

/-- The text of the error returned for the strategy value 3. -/
theorem errorfInt_three :
    ErrorfInt unsupportedMsg 3 = ⟨"QueryError: unsupported matching strategy: 3"⟩ := by
  decide

/-- On the generic engine a strategy value returns an error from `Matches` exactly when
it is none of `MatchAlways`, `MatchNone`, `MatchAny`, `MatchExact`. -/
theorem fieldQuery_matches_error_iff {T : Type} [Comparable T] [Inhabited T]
    (s : MatchType) (c : Optional T) (w : T) :
    (∃ b e, (NewQuery s c).Matches w = some (b, some e)) ↔
      (s ≠ MatchAlways ∧ s ≠ MatchNone ∧ s ≠ MatchAny ∧ s ≠ MatchExact) := by
  by_cases h0 : s = MatchAlways
  · subst h0
    cases c <;> simp [FieldQuery.Matches, NewQuery]
  by_cases h1 : s = MatchNone
  · subst h1
    cases c <;> simp [FieldQuery.Matches, NewQuery, MatchAlways, MatchNone]
  by_cases h2 : s = MatchAny
  · subst h2
    cases c <;> simp [FieldQuery.Matches, NewQuery, MatchAlways, MatchNone, MatchAny]
  by_cases h4 : s = MatchExact
  · subst h4
    cases c with
    | none => simp [FieldQuery.Matches, NewQuery, MatchAlways, MatchNone, MatchAny, MatchExact]
    | some u =>
      cases h : Comparable.goEq u w with
      | none =>
        simp [FieldQuery.Matches, NewQuery, MatchAlways, MatchNone, MatchAny, MatchExact, h]
      | some same =>
        cases same <;>
          simp [FieldQuery.Matches, NewQuery, MatchAlways, MatchNone, MatchAny, MatchExact, h]
  by_cases h5 : s = MatchLike
  · subst h5
    cases c <;>
      simp [FieldQuery.Matches, NewQuery, MatchAlways, MatchNone, MatchAny, MatchExact,
        MatchLike]
  · cases c <;> simp [FieldQuery.Matches, NewQuery, h0, h1, h2, h4, h5]

/-- On the generic engine a strategy value returns an error from `MatchesOption` exactly
when it is none of `MatchAlways`, `MatchNone`, `MatchAny`, `MatchExact`. -/
theorem fieldQuery_matchesOption_error_iff {T : Type} [Comparable T] [Inhabited T]
    (s : MatchType) (c d : Optional T) :
    (∃ b e, (NewQuery s c).MatchesOption d = some (b, some e)) ↔
      (s ≠ MatchAlways ∧ s ≠ MatchNone ∧ s ≠ MatchAny ∧ s ≠ MatchExact) := by
  by_cases h0 : s = MatchAlways
  · subst h0
    cases c <;> simp [FieldQuery.MatchesOption, NewQuery]
  by_cases h1 : s = MatchNone
  · subst h1
    cases c <;> cases d <;>
      simp [FieldQuery.MatchesOption, NewQuery, MatchAlways, MatchNone, MatchAny]
  by_cases h2 : s = MatchAny
  · subst h2
    cases c <;> cases d <;>
      simp [FieldQuery.MatchesOption, NewQuery, MatchAlways, MatchNone, MatchAny]
  by_cases h4 : s = MatchExact
  · subst h4
    cases c with
    | none =>
      cases d <;>
        simp [FieldQuery.MatchesOption, NewQuery, MatchAlways, MatchNone, MatchAny, MatchExact]
    | some u =>
      cases d with
      | none =>
        simp [FieldQuery.MatchesOption, NewQuery, MatchAlways, MatchNone, MatchAny, MatchExact]
      | some x =>
        cases h : Comparable.goEq u x with
        | none =>
          simp [FieldQuery.MatchesOption, NewQuery, MatchAlways, MatchNone, MatchAny,
            MatchExact, h]
        | some same =>
          cases same <;>
            simp [FieldQuery.MatchesOption, NewQuery, MatchAlways, MatchNone, MatchAny,
              MatchExact, h]
  by_cases h5 : s = MatchLike
  · subst h5
    cases c <;> cases d <;>
      simp [FieldQuery.MatchesOption, NewQuery, MatchAlways, MatchNone, MatchAny, MatchExact,
        MatchLike]
  · cases c <;> cases d <;> simp [FieldQuery.MatchesOption, NewQuery, h0, h1, h2, h4, h5]

/-- C8, the code where it departs from the claim: with criterion 1 and candidate 1 the
strategy Exact returns `(true, nil)` from both entry points of both engines, while the
strategy Some reaches the final branch and returns `(false, err)`, `err` being
"QueryError: unsupported matching strategy: 3". -/
theorem some_is_not_exact :
    (NewQuery MatchExact (some (1 : Int))).Matches 1 = some (true, none) ∧
    (NewQuery MatchSome (some (1 : Int))).Matches 1 =
      some (false, some ⟨"QueryError: unsupported matching strategy: 3"⟩) ∧
    (NewQuery MatchExact (some (1 : Int))).MatchesOption (some 1) = some (true, none) ∧
    (NewQuery MatchSome (some (1 : Int))).MatchesOption (some 1) =
      some (false, some ⟨"QueryError: unsupported matching strategy: 3"⟩) ∧
    (∀ MatchString : String → String → Result,
      (NewStringQuery MatchExact (some "a")).Matches MatchString "a" = (true, none) ∧
      (NewStringQuery MatchSome (some "a")).Matches MatchString "a" =
        (false, some ⟨"QueryError: unsupported matching strategy: 3"⟩) ∧
      (NewStringQuery MatchExact (some "a")).MatchesOption MatchString (some "a") =
        (true, none) ∧
      (NewStringQuery MatchSome (some "a")).MatchesOption MatchString (some "a") =
        (false, some ⟨"QueryError: unsupported matching strategy: 3"⟩)) := by
  rw [← errorfInt_three]
  refine ⟨?_, ?_, ?_, ?_, fun MatchString => ⟨?_, ?_, ?_, ?_⟩⟩ <;>
    simp [FieldQuery.Matches, FieldQuery.MatchesOption, StringQuery.Matches,
      StringQuery.MatchesOption, NewQuery, NewStringQuery, MatchExact, MatchSome, MatchAlways,
      MatchNone, MatchAny, MatchLike]

/-! ## Errors of the generic engine -/

/-- C9: on the generic engine the strategy Like always fails: for every criterion, value
and optional candidate, `Matches` and `MatchesOption` return `(false, err)` with an error
whose message contains "QueryError"; likewise for the constructor `Like`. -/
theorem like_generic_fails {T : Type} [Comparable T] [Inhabited T]
    (c d : Optional T) (v w : T) :
    ∃ e : GoError, (∃ pre post : String, e.msg = pre ++ "QueryError" ++ post) ∧
      (NewQuery MatchLike c).Matches w = some (false, some e) ∧
      (NewQuery MatchLike c).MatchesOption d = some (false, some e) ∧
      (Like v).Matches w = some (false, some e) ∧
      (Like v).MatchesOption d = some (false, some e) := by
  refine ⟨Errorf likeUnsupportedMsg, ⟨"",
    ": cannot perform MatchLike matches on generic type. Use StringQuery instead.", by decide⟩,
    ?_, ?_, ?_, ?_⟩
  · cases c <;>
      simp [FieldQuery.Matches, NewQuery, MatchLike, MatchAlways, MatchNone, MatchAny,
        MatchExact]
  · cases c <;> cases d <;>
      simp [FieldQuery.MatchesOption, NewQuery, MatchLike, MatchAlways, MatchNone, MatchAny,
        MatchExact]
  · simp [FieldQuery.Matches, Like, NewOption, MatchLike, MatchAlways, MatchNone, MatchAny,
      MatchExact]
  · cases d <;>
      simp [FieldQuery.MatchesOption, Like, NewOption, MatchLike, MatchAlways, MatchNone,
        MatchAny, MatchExact]

/-- C10, the code where it departs from the claim: on the generic engine the named
strategy Some returns a non-nil error, from `Matches` with an absent criterion and from
`MatchesOption` with a present criterion, for present and absent candidates. -/
theorem some_generic_returns_error :
    (NewQuery MatchSome (none : Optional Int)).Matches 7 =
      some (false, some ⟨"QueryError: unsupported matching strategy: 3"⟩) ∧
    (NewQuery MatchSome (some (7 : Int))).MatchesOption (some 7) =
      some (false, some ⟨"QueryError: unsupported matching strategy: 3"⟩) ∧
    (NewQuery MatchSome (some (7 : Int))).MatchesOption none =
      some (false, some ⟨"QueryError: unsupported matching strategy: 3"⟩) := by
  rw [← errorfInt_three]
  refine ⟨?_, ?_, ?_⟩ <;>
    simp [FieldQuery.Matches, FieldQuery.MatchesOption, NewQuery, MatchSome, MatchAlways,
      MatchNone, MatchAny, MatchExact, MatchLike]

/-! ## Strategy values outside the named ones -/

/-- C11: for every strategy value below 0 or above 5, both engines return `(false, err)`
from `Matches` and from `MatchesOption`, for every criterion and every candidate; `err`
is the error of the final branch, which names the value. -/
theorem unnamed_strategy_fails {T : Type} [Comparable T] [Inhabited T]
    (MatchString : String → String → Result) (s : MatchType) (hs : s < 0 ∨ 5 < s)
    (c d : Optional T) (w : T) (cs ds : Optional String) (sw : String) :
    (NewQuery s c).Matches w = some (false, some (ErrorfInt unsupportedMsg s)) ∧
    (NewQuery s c).MatchesOption d = some (false, some (ErrorfInt unsupportedMsg s)) ∧
    (NewStringQuery s cs).Matches MatchString sw =
      (false, some (ErrorfInt unsupportedMsg s)) ∧
    (NewStringQuery s cs).MatchesOption MatchString ds =
      (false, some (ErrorfInt unsupportedMsg s)) := by
  have h0 : s ≠ MatchAlways := by
    intro h
    rw [h] at hs
    exact absurd hs (by decide)
  have h1 : s ≠ MatchNone := by
    intro h
    rw [h] at hs
    exact absurd hs (by decide)
  have h2 : s ≠ MatchAny := by
    intro h
    rw [h] at hs
    exact absurd hs (by decide)
  have h4 : s ≠ MatchExact := by
    intro h
    rw [h] at hs
    exact absurd hs (by decide)
  have h5 : s ≠ MatchLike := by
    intro h
    rw [h] at hs
    exact absurd hs (by decide)
  refine ⟨?_, ?_, ?_, ?_⟩
  · cases c <;> simp [FieldQuery.Matches, NewQuery, h0, h1, h2, h4, h5]
  · cases c <;> cases d <;> simp [FieldQuery.MatchesOption, NewQuery, h0, h1, h2, h4, h5]
  · cases cs <;> simp [StringQuery.Matches, NewStringQuery, h0, h1, h2, h4, h5]
  · cases cs <;> cases ds <;>
      simp [StringQuery.MatchesOption, NewStringQuery, h0, h1, h2, h4, h5]

/-- C11 at the strategy value 6, a present criterion and a present candidate. -/
theorem unnamed_strategy_fails_witness :
    ((6 : MatchType) < 0 ∨ 5 < (6 : MatchType)) ∧
    (NewQuery 6 (some (1 : Int))).MatchesOption (some 1) =
      some (false, some (ErrorfInt unsupportedMsg 6)) :=
  ⟨by decide,
    (unnamed_strategy_fails fragmentMatchString 6 (by decide) (some (1 : Int)) (some 1) 1
      none none "").2.1⟩

/-! ## An error comes with the boolean false -/

/-- The outcome of the comparison of the Exact branch carries no error. -/
theorem exact_outcome_no_error (o : Option Bool) (b : Bool) (e : GoError)
    (h : (o.bind fun same => if same = true then some ((true, none) : Result)
      else some (false, none)) = some (b, some e)) : False := by
  cases o with
  | none => simp at h
  | some same => cases same <;> simp at h

/-- An error returned by `FieldQuery.Matches` comes with `false`. -/
theorem fieldQuery_matches_err_false {T : Type} [Comparable T] [Inhabited T]
    (q : FieldQuery T) (v : T) (b : Bool) (e : GoError)
    (h : q.Matches v = some (b, some e)) : b = false := by
  rcases q with ⟨s, c⟩
  cases c <;> simp [FieldQuery.Matches] at h <;> split_ifs at h <;>
    first | exact (exact_outcome_no_error _ b e h).elim | simp_all

/-- An error returned by `FieldQuery.MatchesOption` comes with `false`. -/
theorem fieldQuery_matchesOption_err_false {T : Type} [Comparable T] [Inhabited T]
    (q : FieldQuery T) (d : Optional T) (b : Bool) (e : GoError)
    (h : q.MatchesOption d = some (b, some e)) : b = false := by
  rcases q with ⟨s, c⟩
  cases c <;> cases d <;> simp [FieldQuery.MatchesOption] at h <;> split_ifs at h <;>
    first | exact (exact_outcome_no_error _ b e h).elim | simp_all

/-- An error returned by `StringQuery.Matches` comes with `false`, whatever the
regular-expression engine returns. -/
theorem stringQuery_matches_err_false (MatchString : String → String → Result)
    (q : StringQuery) (v : String) (b : Bool) (e : GoError)
    (h : q.Matches MatchString v = (b, some e)) : b = false := by
  rcases q with ⟨s, c⟩
  cases c <;> simp [StringQuery.Matches, likeBranch] at h <;> split_ifs at h <;> simp_all

/-- An error returned by `StringQuery.MatchesOption` comes with `false`, whatever the
regular-expression engine returns. -/
theorem stringQuery_matchesOption_err_false (MatchString : String → String → Result)
    (q : StringQuery) (d : Optional String) (b : Bool) (e : GoError)
    (h : q.MatchesOption MatchString d = (b, some e)) : b = false := by
  rcases q with ⟨s, c⟩
  cases c <;> cases d <;> simp [StringQuery.MatchesOption, likeBranch] at h <;>
    split_ifs at h <;> simp_all

/-- An error returned by `MatchAll` comes with `false`, whatever the matchers return. -/
theorem matchAll_err_false (ms : List Matcher) (b : Bool) (e : GoError)
    (h : MatchAll ms = some (b, some e)) : b = false := by
  induction ms with
  | nil => simp [MatchAll] at h
  | cons m ms ih =>
    simp only [MatchAll] at h
    cases hm : m.Match () with
    | none => simp [hm] at h
    | some r =>
      rcases r with ⟨rb, re⟩
      simp only [hm, Option.some_bind] at h
      split_ifs at h with h1 h2
      · simp at h
        exact h.1
      · simp at h
      · exact ih h

/-- C12, as the code has it: whenever `FieldQuery.Matches`, `FieldQuery.MatchesOption`,
`StringQuery.Matches`, `StringQuery.MatchesOption` or `MatchAll` returns an error, the
boolean is false, for every input; `Match.Match` returns what the bound query returns,
so the same holds for it when the bound query is a `FieldQuery` or a `StringQuery`, and
more generally when the bound query never returns `true` with an error. -/
theorem error_implies_false {T : Type} [Comparable T] [Inhabited T]
    (MatchString : String → String → Result) (q : FieldQuery T) (v : T) (d : Optional T)
    (sq : StringQuery) (sv : String) (sd : Optional String) (ms : List Matcher)
    (m : Match T) (b : Bool) (e : GoError) :
    (q.Matches v = some (b, some e) → b = false) ∧
    (q.MatchesOption d = some (b, some e) → b = false) ∧
    (sq.Matches MatchString sv = (b, some e) → b = false) ∧
    (sq.MatchesOption MatchString sd = (b, some e) → b = false) ∧
    (MatchAll ms = some (b, some e) → b = false) ∧
    ((Match.mk q.AsRef d).Match = some (b, some e) → b = false) ∧
    ((Match.mk (sq.AsRef MatchString) sd).Match = some (b, some e) → b = false) ∧
    ((∀ o e1, m.query.MatchesOption o ≠ some (true, some e1)) →
      m.Match = some (b, some e) → b = false) ∧
    m.Match = m.query.MatchesOption m.operand := by
  refine ⟨fieldQuery_matches_err_false q v b e, fieldQuery_matchesOption_err_false q d b e,
    stringQuery_matches_err_false MatchString sq sv b e,
    stringQuery_matchesOption_err_false MatchString sq sd b e, matchAll_err_false ms b e,
    ?_, ?_, ?_, rfl⟩
  · intro h
    exact fieldQuery_matchesOption_err_false q d b e h
  · intro h
    simp only [Match.Match, StringQuery.AsRef, Option.some.injEq] at h
    exact stringQuery_matchesOption_err_false MatchString sq sd b e h
  · intro hq h
    cases b with
    | false => rfl
    | true => exact absurd h (hq m.operand e)

/-- C12 on an evaluation that returns an error: the generic `Like(1).Matches(1)`. -/
theorem error_implies_false_witness :
    (Like (1 : Int)).Matches 1 = some (false, some (Errorf likeUnsupportedMsg)) ∧
    false = false :=
  ⟨by simp [FieldQuery.Matches, Like, NewOption, MatchLike, MatchAlways, MatchNone, MatchAny,
      MatchExact],
    (error_implies_false fragmentMatchString (Like (1 : Int)) 1 none AlwaysString "" none []
      (Match.mk (Like (1 : Int)).AsRef none) false (Errorf likeUnsupportedMsg)).1
      (by simp [FieldQuery.Matches, Like, NewOption, MatchLike, MatchAlways, MatchNone,
        MatchAny, MatchExact])⟩

/-- C12 fails as stated for `Match.Match`: bound to a host-defined query whose
`MatchesOption` returns `(true, err)`, the predicate returns `true` together with a
non-nil error. -/
theorem match_host_query_true_with_error :
    (Match.mk hostQuery none).Match = some (true, some ⟨"host error"⟩) ∧
    (NewMatch none hostQuery).Match () = some (true, some ⟨"host error"⟩) ∧
    (NewValueMatch 1 hostQuery).Match () = some (true, some ⟨"host error"⟩) :=
  ⟨rfl, rfl, rfl⟩

/-! ## String Like with an absent side -/

/-- C13: on the string engine with strategy Like, an absent criterion gives `(false, nil)`
from `Matches`, `(true, nil)` from `MatchesOption` on an absent candidate and
`(false, nil)` on a present one; a present criterion gives `(false, nil)` from
`MatchesOption` on an absent candidate. No pattern is evaluated: the results hold for
every engine, the one rejecting every pattern included. -/
theorem like_string_absent (MatchString : String → String → Result) (c w : String) :
    (NewStringQuery MatchLike none).Matches MatchString w = (false, none) ∧
    (NewStringQuery MatchLike none).MatchesOption MatchString none = (true, none) ∧
    (NewStringQuery MatchLike none).MatchesOption MatchString (some w) = (false, none) ∧
    (NewStringQuery MatchLike (some c)).MatchesOption MatchString none = (false, none) ∧
    (LikeString c).MatchesOption MatchString none = (false, none) ∧
    (LikeString c).MatchesOption rejectingMatchString none = (false, none) := by
  refine ⟨?_, ?_, ?_, ?_, ?_, ?_⟩ <;>
    simp [StringQuery.Matches, StringQuery.MatchesOption, NewStringQuery, LikeString,
      NewOption, MatchLike, MatchAlways, MatchNone, MatchAny, MatchExact]

/-! ## The wildcard translation -/

/-- Replacing a one-character `old` is a substitution character by character. -/
theorem replaceScan_single (c : Char) (new s : List Char) :
    replaceScan [c] new 0 s = s.flatMap fun x => if x = c then new else [x] := by
  induction s with
  | nil => simp [replaceScan]
  | cons x xs ih =>
    by_cases h : x = c
    · subst h
      simp [replaceScan, List.isPrefixOf, ih]
    · have h2 : ¬ c = x := fun hh => h hh.symm
      simp [replaceScan, List.isPrefixOf, ih, h, h2]

/-- The two passes of the code amount to one pass of `substChar`. -/
theorem likePattern_data (test : String) :
    (likePattern test).data = test.data.flatMap substChar := by
  have e1 : ("%" : String).data = [Char.ofNat 37] := by decide
  have e2 : ("_" : String).data = [Char.ofNat 95] := by decide
  have e3 : (".*" : String).data = [Char.ofNat 46, Char.ofNat 42] := by decide
  have e4 : (".": String).data = [Char.ofNat 46] := by decide
  simp only [likePattern, ReplaceAll, e1, e2, e3, e4, List.cons_ne_nil, if_false,
    replaceScan_single, List.flatMap_assoc]
  congr 1
  funext x
  by_cases h1 : x = Char.ofNat 37
  · subst h1
    decide
  · by_cases h2 : x = Char.ofNat 95
    · subst h2
      decide
    · have g1 : ¬ x = '%' := h1
      have g2 : ¬ x = '_' := h2
      simp [substChar, h1, h2, g1, g2]

/-- A string without wildcards is left as it is by `substChar`. -/
theorem flatMap_substChar_of_no_wildcard (l : List Char)
    (h : ∀ x ∈ l, x ≠ '%' ∧ x ≠ '_') : l.flatMap substChar = l := by
  induction l with
  | nil => rfl
  | cons x xs ih =>
    have hx := h x (List.mem_cons_self x xs)
    have hxs : ∀ y ∈ xs, y ≠ '%' ∧ y ≠ '_' := fun y hy => h y (List.mem_cons_of_mem x hy)
    simp [substChar, hx.1, hx.2, ih hxs]

/-- C14: the translation of the code (replace every `%` by `.*`, then every `_` by `.`)
equals the substitution character by character of the spec; hence it distributes over
concatenation, and a criterion containing neither `%` nor `_` is its own pattern. -/
theorem likePattern_eq_translateCharwise (test a b : String) :
    likePattern test = translateCharwise test ∧
    likePattern (a ++ b) = likePattern a ++ likePattern b ∧
    ((∀ x ∈ test.data, x ≠ '%' ∧ x ≠ '_') → likePattern test = test) := by
  refine ⟨?_, ?_, ?_⟩
  · apply String.ext
    simp [likePattern_data, translateCharwise]
  · apply String.ext
    simp [likePattern_data]
  · intro h
    apply String.ext
    rw [likePattern_data, flatMap_substChar_of_no_wildcard _ h]

/-- C14 on the criteria of the test suite: `o%gi_al` becomes `o.*gi.al`, and `original`
is unchanged. -/
theorem likePattern_eq_translateCharwise_witness :
    likePattern "o%gi_al" = "o.*gi.al" ∧ likePattern "original" = "original" :=
  ⟨(likePattern_eq_translateCharwise "o%gi_al" "" "").1.trans (by decide),
    (likePattern_eq_translateCharwise "original" "" "").2.2 (by decide)⟩

/-! ## String Like on a present criterion and a present candidate -/

/-- The Like branch hands `likePattern test` to the engine. -/
theorem likeBranch_eq (MatchString : String → String → Result) (test value : String) :
    likeBranch MatchString test value =
      if (MatchString (likePattern test) value).2 ≠ none then
        (false, (MatchString (likePattern test) value).2)
      else ((MatchString (likePattern test) value).1, none) := rfl

/-- Both entry points of the string engine reach the Like branch when the strategy is
Like and criterion and candidate are present. -/
theorem likeString_eq_likeBranch (MatchString : String → String → Result) (c d : String) :
    (LikeString c).Matches MatchString d = likeBranch MatchString c d ∧
    (LikeString c).MatchesOption MatchString (some d) = likeBranch MatchString c d ∧
    (NewStringQuery MatchLike (some c)).Matches MatchString d = likeBranch MatchString c d ∧
    (NewStringQuery MatchLike (some c)).MatchesOption MatchString (some d) =
      likeBranch MatchString c d := by
  refine ⟨?_, ?_, ?_, ?_⟩ <;>
    simp [StringQuery.Matches, StringQuery.MatchesOption, NewStringQuery, LikeString,
      NewOption, MatchLike, MatchAlways, MatchNone, MatchAny, MatchExact]

/-- C15: on the string engine with strategy Like, a present criterion `c` and a present
candidate `d`, `Matches(d)` and `MatchesOption(present(d))` return the outcome of the
engine on the translated criterion and `d`: `(false, err)` with the engine's own error
when it rejects the pattern, `(m, nil)` with the engine's result `m` otherwise. -/
theorem like_string_present (MatchString : String → String → Result) (c d : String) :
    (∀ e, (MatchString (likePattern c) d).2 = some e →
      (LikeString c).Matches MatchString d = (false, some e) ∧
      (LikeString c).MatchesOption MatchString (some d) = (false, some e)) ∧
    ((MatchString (likePattern c) d).2 = none →
      (LikeString c).Matches MatchString d = ((MatchString (likePattern c) d).1, none) ∧
      (LikeString c).MatchesOption MatchString (some d) =
        ((MatchString (likePattern c) d).1, none)) := by
  obtain ⟨h1, h2, -, -⟩ := likeString_eq_likeBranch MatchString c d
  rw [h1, h2, likeBranch_eq]
  constructor
  · intro e he
    simp [he]
  · intro he
    simp [he]

/-- C15 on an engine that rejects the pattern, and on one that accepts it. -/
theorem like_string_present_witness :
    (LikeString "orig%").Matches rejectingMatchString "original" =
      (false, some ⟨"error parsing regexp"⟩) ∧
    (LikeString "orig%").Matches fragmentMatchString "original" =
      ((fragmentMatchString (likePattern "orig%") "original").1, none) :=
  ⟨((like_string_present rejectingMatchString "orig%" "original").1 ⟨"error parsing regexp"⟩
      rfl).1,
    ((like_string_present fragmentMatchString "orig%" "original").2 (by decide)).1⟩

/-! ## The patterns of Like in the regular-expression engine -/

/-- A character that is no metacharacter is neither `*` nor `.`. -/
theorem not_meta_ne (x : Char) (h : isRegexpMeta x = false) : x ≠ '*' ∧ x ≠ '.' := by
  constructor
  · rintro rfl
    revert h
    decide
  · rintro rfl
    revert h
    decide

/-- Reading the translation of one criterion character adds its atom. -/
theorem foldl_parseStep_substChar (x : Char) (h : isRegexpMeta x = false) (acc : List Tok) :
    (substChar x).foldl parseStep (some acc) = some (tokOfChar x :: acc) := by
  by_cases h1 : x = '%'
  · subst h1
    simp [substChar, tokOfChar, parseStep]
  · by_cases h2 : x = '_'
    · subst h2
      simp [substChar, tokOfChar, parseStep]
    · obtain ⟨h3, h4⟩ := not_meta_ne x h
      simp [substChar, tokOfChar, parseStep, h1, h2, h3, h4, h]

/-- Reading the translation of a criterion without metacharacters adds the atoms of its
characters. -/
theorem foldl_parseStep_flatMap (cs : List Char) (h : ∀ c ∈ cs, isRegexpMeta c = false)
    (acc : List Tok) :
    (cs.flatMap substChar).foldl parseStep (some acc) =
      some ((cs.map tokOfChar).reverse ++ acc) := by
  induction cs generalizing acc with
  | nil => simp
  | cons x xs ih =>
    have hx := h x (List.mem_cons_self x xs)
    have hxs : ∀ c ∈ xs, isRegexpMeta c = false := fun c hc => h c (List.mem_cons_of_mem x hc)
    simp [List.foldl_append, foldl_parseStep_substChar x hx, ih hxs]

/-- The translation of a criterion without metacharacters is a pattern of the fragment,
whose atoms are those of the characters of the criterion. -/
theorem parsePattern_likePattern (c : String) (h : isMetaFree c = true) :
    parsePattern (likePattern c).data = some (c.data.map tokOfChar) := by
  have h2 : ∀ x ∈ c.data, isRegexpMeta x = false := by
    intro x hx
    have := List.all_eq_true.mp h x hx
    simpa using this
  simp [parsePattern, likePattern_data, foldl_parseStep_flatMap c.data h2]

/-- A string free of wildcards and metacharacters is free of metacharacters. -/
theorem isMetaFree_of_isPlain (p : String) (h : isPlain p = true) : isMetaFree p = true := by
  apply List.all_eq_true.mpr
  intro x hx
  have := List.all_eq_true.mp h x hx
  simp [isPlainChar] at this
  simp [this.1.1]

/-- The atoms of a string free of wildcards are literals. -/
theorem map_tokOfChar_of_isPlain (p : String) (h : isPlain p = true) :
    p.data.map tokOfChar = p.data.map Tok.lit := by
  apply List.map_congr_left
  intro x hx
  have := List.all_eq_true.mp h x hx
  simp [isPlainChar] at this
  simp [tokOfChar, this.1.2, this.2]

/-- Literal atoms match exactly their own characters, then the rest of the pattern goes
on. -/
theorem matchHere_lits_iff (p : List Char) (ts : List Tok) (s : List Char) :
    matchHere (p.map Tok.lit ++ ts) s = true ↔ ∃ r, s = p ++ r ∧ matchHere ts r = true := by
  induction p generalizing s with
  | nil => simp
  | cons x xs ih =>
    cases s with
    | nil => simp [matchHere]
    | cons y ys =>
      have step : matchHere ((x :: xs).map Tok.lit ++ ts) (y :: ys) =
          (decide (x = y) && matchHere (xs.map Tok.lit ++ ts) ys) := rfl
      rw [step, Bool.and_eq_true, decide_eq_true_eq, ih]
      constructor
      · rintro ⟨rfl, r, rfl, hr⟩
        exact ⟨r, rfl, hr⟩
      · rintro ⟨r, hyr, hr⟩
        obtain ⟨rfl, rfl⟩ := List.cons.inj hyr
        exact ⟨rfl, r, rfl, hr⟩

/-- An unanchored match is a match at some suffix of the text. -/
theorem matchAnywhere_iff (toks : List Tok) (s : List Char) :
    matchAnywhere toks s = true ↔ ∃ t, t <:+ s ∧ matchHere toks t = true := by
  induction s with
  | nil => simp [matchAnywhere]
  | cons x xs ih =>
    simp only [matchAnywhere, Bool.or_eq_true, ih, List.suffix_cons_iff]
    constructor
    · rintro (h | ⟨t, ht, hm⟩)
      · exact ⟨x :: xs, Or.inl rfl, h⟩
      · exact ⟨t, Or.inr ht, hm⟩
    · rintro ⟨t, (rfl | ht), hm⟩
      · exact Or.inl hm
      · exact Or.inr ⟨t, ht, hm⟩

/-- A match at the start of the text is an unanchored match. -/
theorem matchAnywhere_of_matchHere (toks : List Tok) (s : List Char)
    (h : matchHere toks s = true) : matchAnywhere toks s = true :=
  (matchAnywhere_iff toks s).mpr ⟨s, List.suffix_refl s, h⟩

/-- Literal atoms match somewhere exactly when their characters occur in the text. -/
theorem matchAnywhere_lits_iff (p s : List Char) :
    matchAnywhere (p.map Tok.lit) s = true ↔ p <:+: s := by
  rw [matchAnywhere_iff, List.infix_iff_prefix_suffix]
  constructor
  · rintro ⟨t, ht, hm⟩
    have hm2 : matchHere (p.map Tok.lit ++ []) t = true := by simpa using hm
    obtain ⟨r, rfl, -⟩ := (matchHere_lits_iff p [] t).mp hm2
    exact ⟨p ++ r, List.prefix_append p r, ht⟩
  · rintro ⟨t, ⟨r, rfl⟩, ht⟩
    refine ⟨p ++ r, ht, ?_⟩
    have := (matchHere_lits_iff p [] (p ++ r)).mpr ⟨r, rfl, by simp [matchHere]⟩
    simpa using this

/-- The engine `fragmentMatchString` agrees with Go's on the fragment. -/
theorem fragmentMatchString_agrees : AgreesWithGoRegexp fragmentMatchString := by
  intro pattern s toks h
  simp [fragmentMatchString, h]

/-- With an engine agreeing with Go's, Like on a present criterion without metacharacters
and a present candidate is the unanchored match of the atoms of the criterion. -/
theorem likeString_matches_eq (MatchString : String → String → Result)
    (hre : AgreesWithGoRegexp MatchString) (c d : String) (hc : isMetaFree c = true) :
    (LikeString c).Matches MatchString d =
      (matchAnywhere (c.data.map tokOfChar) d.data, none) ∧
    (LikeString c).MatchesOption MatchString (some d) =
      (matchAnywhere (c.data.map tokOfChar) d.data, none) := by
  obtain ⟨h1, h2, -, -⟩ := likeString_eq_likeBranch MatchString c d
  rw [h1, h2, likeBranch_eq, hre (likePattern c) d _ (parsePattern_likePattern c hc)]
  simp

/-! ## String Like without wildcards -/

/-- C16: for every criterion `p` without wildcard and without metacharacter and every
candidate `s`, `LikeString(p).Matches(s)` returns `(b, nil)` where `b` is true exactly
when `p` occurs as a contiguous substring of `s`; so the empty criterion matches every
candidate and a proper prefix of `p` is not matched. The engine is any one agreeing with
Go's on the fragment. -/
theorem like_plain_is_substring (MatchString : String → String → Result)
    (hre : AgreesWithGoRegexp MatchString) (p s : String) (hp : isPlain p = true) :
    (∃ b, (LikeString p).Matches MatchString s = (b, none) ∧
      (b = true ↔ p.data <:+: s.data)) ∧
    (LikeString "").Matches MatchString s = (true, none) ∧
    (s.data <+: p.data → s ≠ p → (LikeString p).Matches MatchString s = (false, none)) := by
  have key : ∀ q : String, isPlain q = true →
      (LikeString q).Matches MatchString s = (matchAnywhere (q.data.map Tok.lit) s.data, none) := by
    intro q hq
    rw [(likeString_matches_eq MatchString hre q s (isMetaFree_of_isPlain q hq)).1,
      map_tokOfChar_of_isPlain q hq]
  refine ⟨⟨_, key p hp, matchAnywhere_lits_iff p.data s.data⟩, ?_, ?_⟩
  · rw [key "" (by decide)]
    have : matchAnywhere (("" : String).data.map Tok.lit) s.data = true :=
      (matchAnywhere_lits_iff _ _).mpr ⟨[], s.data, by simp⟩
    rw [this]
  · intro hpre hne
    rw [key p hp]
    have : ¬ matchAnywhere (p.data.map Tok.lit) s.data = true := by
      rw [matchAnywhere_lits_iff]
      intro hinf
      have hlen : s.data.length = p.data.length :=
        Nat.le_antisymm hpre.length_le hinf.length_le
      exact hne (String.ext (hpre.eq_of_length hlen))
    simp [this]

/-- C16 on the criterion `original`: it matches the candidate `unoriginal` and does not
match its own proper prefix `orig`. -/
theorem like_plain_is_substring_witness :
    AgreesWithGoRegexp fragmentMatchString ∧ isPlain "original" = true ∧
    (∃ b, (LikeString "original").Matches fragmentMatchString "unoriginal" = (b, none) ∧
      (b = true ↔ "original".data <:+: "unoriginal".data)) ∧
    (LikeString "original").Matches fragmentMatchString "orig" = (false, none) :=
  ⟨fragmentMatchString_agrees, by decide,
    (like_plain_is_substring fragmentMatchString fragmentMatchString_agrees "original"
      "unoriginal" (by decide)).1,
    (like_plain_is_substring fragmentMatchString fragmentMatchString_agrees "original"
      "orig" (by decide)).2.2 (by decide) (by decide)⟩

/-! ## The wildcards of Like -/

/-- Where the rest of the pattern matches, `.*` followed by it matches. -/
theorem starAny_of (k : List Char → Bool) (s : List Char) (h : k s = true) :
    starAny k s = true := by
  cases s with
  | nil => simpa [starAny] using h
  | cons x xs => simp [starAny, h]

/-- The atom `.*` may consume any run of characters other than the newline. -/
theorem starAny_append (k : List Char → Bool) (m s : List Char)
    (hm : ∀ x ∈ m, x ≠ Char.ofNat 10) (h : k s = true) : starAny k (m ++ s) = true := by
  induction m with
  | nil => exact starAny_of k s h
  | cons x xs ih =>
    have hx : x ≠ Char.ofNat 10 := hm x (List.mem_cons_self x xs)
    have hxs : ∀ y ∈ xs, y ≠ Char.ofNat 10 := fun y hy => hm y (List.mem_cons_of_mem x hy)
    simp [starAny, ih hxs, hx]

/-- Literal atoms match their own characters. -/
theorem matchHere_lits_self (q : List Char) : matchHere (q.map Tok.lit) q = true := by
  have := (matchHere_lits_iff q [] q).mpr ⟨[], by simp, by simp [matchHere]⟩
  simpa using this

/-- The atoms of `p`, `.*` and the atoms of `q` match `p`, a run without newline, `q`. -/
theorem matchHere_lits_star_lits (p m q : List Char) (hm : ∀ x ∈ m, x ≠ Char.ofNat 10) :
    matchHere (p.map Tok.lit ++ Tok.dotStar :: q.map Tok.lit) (p ++ (m ++ q)) = true := by
  rw [matchHere_lits_iff]
  refine ⟨m ++ q, rfl, ?_⟩
  show starAny (matchHere (q.map Tok.lit)) (m ++ q) = true
  exact starAny_append _ m q hm (matchHere_lits_self q)

/-- The atoms of `p`, `.` and the atoms of `q` match `p`, one character other than the
newline, `q`. -/
theorem matchHere_lits_dot_lits (p q : List Char) (x : Char) (hx : x ≠ Char.ofNat 10) :
    matchHere (p.map Tok.lit ++ Tok.dot :: q.map Tok.lit) (p ++ (x :: q)) = true := by
  rw [matchHere_lits_iff]
  refine ⟨x :: q, rfl, ?_⟩
  show (x != Char.ofNat 10 && matchHere (q.map Tok.lit) q) = true
  simp [matchHere_lits_self q, hx]

/-- The atoms of a criterion match the criterion itself. -/
theorem matchHere_self (cs : List Char) : matchHere (cs.map tokOfChar) cs = true := by
  induction cs with
  | nil => simp [matchHere]
  | cons x xs ih =>
    by_cases h1 : x = '%'
    · subst h1
      show starAny (matchHere (xs.map tokOfChar)) ('%' :: xs) = true
      have h2 := starAny_of _ _ ih
      have h3 : ('%' != Char.ofNat 10) = true := by decide
      simp [starAny, h2, h3]
    · by_cases h2 : x = '_'
      · subst h2
        show ('_' != Char.ofNat 10 && matchHere (xs.map tokOfChar) xs) = true
        have h3 : ('_' != Char.ofNat 10) = true := by decide
        simp [ih, h3]
      · have e : tokOfChar x = Tok.lit x := by simp [tokOfChar, h1, h2]
        show matchHere (tokOfChar x :: xs.map tokOfChar) (x :: xs) = true
        rw [e]
        show (decide (x = x) && matchHere (xs.map tokOfChar) xs) = true
        simp [ih]

/-- The atoms of `p ++ w ++ q`, for `p` and `q` without wildcards and one wildcard `w`. -/
theorem map_tokOfChar_wild (p q : String) (w : Char) (hp : isPlain p = true)
    (hq : isPlain q = true) :
    (p.data ++ (w :: q.data)).map tokOfChar =
      p.data.map Tok.lit ++ tokOfChar w :: q.data.map Tok.lit := by
  simp [map_tokOfChar_of_isPlain p hp, map_tokOfChar_of_isPlain q hq]

/-- A criterion made of `p`, one wildcard and `q` has no metacharacter when `p` and `q`
have none. -/
theorem isMetaFree_wild (p q w : String) (hp : isPlain p = true) (hq : isPlain q = true)
    (hw : isMetaFree w = true) : isMetaFree (p ++ w ++ q) = true := by
  have h1 := isMetaFree_of_isPlain p hp
  have h2 := isMetaFree_of_isPlain q hq
  simp only [isMetaFree, String.data_append, List.all_append, Bool.and_eq_true] at *
  exact ⟨⟨h1, hw⟩, h2⟩

/-- C17, as the code has it: for `p` and `q` without wildcard and metacharacter and for
every string `m` that contains no newline (the character 10), the empty string included,
`LikeString(p ++ "%" ++ q).Matches(p ++ m ++ q)` returns `(true, nil)`. The engine is any
one agreeing with Go's on the fragment. -/
theorem like_percent_matches (MatchString : String → String → Result)
    (hre : AgreesWithGoRegexp MatchString) (p q m : String) (hp : isPlain p = true)
    (hq : isPlain q = true) (hm : ∀ x ∈ m.data, x ≠ Char.ofNat 10) :
    (LikeString (p ++ "%" ++ q)).Matches MatchString (p ++ m ++ q) = (true, none) := by
  rw [(likeString_matches_eq MatchString hre _ _
    (isMetaFree_wild p q "%" hp hq (by decide))).1]
  have e0 : ("%" : String).data = ['%'] := rfl
  have e1 : (p ++ "%" ++ q).data = p.data ++ ('%' :: q.data) := by
    simp [String.data_append, e0]
  have e2 : (p ++ m ++ q).data = p.data ++ (m.data ++ q.data) := by
    simp [String.data_append]
  have e3 : tokOfChar '%' = Tok.dotStar := rfl
  rw [e1, e2, map_tokOfChar_wild p q '%' hp hq, e3,
    matchAnywhere_of_matchHere _ _ (matchHere_lits_star_lits p.data m.data q.data hm)]

/-- C17 on the criterion `orig%al` and the candidate `original`. -/
theorem like_percent_matches_witness :
    AgreesWithGoRegexp fragmentMatchString ∧ isPlain "orig" = true ∧ isPlain "al" = true ∧
    (LikeString ("orig" ++ "%" ++ "al")).Matches fragmentMatchString ("orig" ++ "in" ++ "al") =
      (true, none) :=
  ⟨fragmentMatchString_agrees, by decide, by decide,
    like_percent_matches fragmentMatchString fragmentMatchString_agrees "orig" "al" "in"
      (by decide) (by decide) (by decide)⟩

/-- C17 fails as stated: with `p = "a"`, `q = "b"` and `m` the newline, the criterion
`a%b` becomes the pattern `a.*b`, in which `.` does not stand for a newline, and the
candidate is not matched. -/
theorem like_percent_newline :
    AgreesWithGoRegexp fragmentMatchString ∧ isPlain "a" = true ∧ isPlain "b" = true ∧
    (LikeString ("a" ++ "%" ++ "b")).Matches fragmentMatchString
      ("a" ++ String.singleton (Char.ofNat 10) ++ "b") = (false, none) := by
  refine ⟨fragmentMatchString_agrees, by decide, by decide, ?_⟩
  rw [(likeString_matches_eq fragmentMatchString fragmentMatchString_agrees _ _
    (by decide)).1]
  decide

/-- C18, as the code has it: for `p` and `q` without wildcard and metacharacter and for
every character `x` other than the newline (the character 10),
`LikeString(p ++ "_" ++ q).Matches(p ++ [x] ++ q)` returns `(true, nil)`; and `_` does not
match zero characters: `LikeString("_").Matches("")` returns `(false, nil)`. The engine is
any one agreeing with Go's on the fragment. -/
theorem like_underscore_matches (MatchString : String → String → Result)
    (hre : AgreesWithGoRegexp MatchString) (p q : String) (x : Char) (hp : isPlain p = true)
    (hq : isPlain q = true) (hx : x ≠ Char.ofNat 10) :
    (LikeString (p ++ "_" ++ q)).Matches MatchString (p ++ String.singleton x ++ q) =
      (true, none) ∧
    (LikeString "_").Matches MatchString "" = (false, none) := by
  constructor
  · rw [(likeString_matches_eq MatchString hre _ _
      (isMetaFree_wild p q "_" hp hq (by decide))).1]
    have e0 : ("_" : String).data = ['_'] := rfl
    have e1 : (p ++ "_" ++ q).data = p.data ++ ('_' :: q.data) := by
      simp [String.data_append, e0]
    have e2 : (p ++ String.singleton x ++ q).data = p.data ++ (x :: q.data) := by
      have e4 : (String.singleton x).data = [x] := rfl
      simp [String.data_append, e4]
    have e3 : tokOfChar '_' = Tok.dot := rfl
    rw [e1, e2, map_tokOfChar_wild p q '_' hp hq, e3,
      matchAnywhere_of_matchHere _ _ (matchHere_lits_dot_lits p.data q.data x hx)]
  · rw [(likeString_matches_eq MatchString hre "_" "" (by decide)).1]
    decide

/-- C18 on the criterion `origi_al` and the candidate `original`. -/
theorem like_underscore_matches_witness :
    AgreesWithGoRegexp fragmentMatchString ∧ isPlain "origi" = true ∧ isPlain "al" = true ∧
    (LikeString ("origi" ++ "_" ++ "al")).Matches fragmentMatchString
      ("origi" ++ String.singleton 'n' ++ "al") = (true, none) :=
  ⟨fragmentMatchString_agrees, by decide, by decide,
    (like_underscore_matches fragmentMatchString fragmentMatchString_agrees "origi" "al" 'n'
      (by decide) (by decide) (by decide)).1⟩

/-- C18 fails as stated: with `p` and `q` empty and `x` the newline, the criterion `_`
becomes the pattern `.`, which does not stand for a newline, and the candidate made of
one newline is not matched. -/
theorem like_underscore_newline :
    AgreesWithGoRegexp fragmentMatchString ∧ isPlain "" = true ∧
    (LikeString ("" ++ "_" ++ "")).Matches fragmentMatchString
      ("" ++ String.singleton (Char.ofNat 10) ++ "") = (false, none) := by
  refine ⟨fragmentMatchString_agrees, by decide, ?_⟩
  rw [(likeString_matches_eq fragmentMatchString fragmentMatchString_agrees _ _
    (by decide)).1]
  decide

/-- C19: a trailing `%` gives a prefix match: for `p` without wildcard and metacharacter
and every candidate `s` that starts with `p`, `LikeString(p ++ "%").Matches(s)` and
`LikeString(p ++ "%").MatchesOption(present(s))` return `(true, nil)`. The engine is any
one agreeing with Go's on the fragment. -/
theorem like_trailing_percent_starts_with (MatchString : String → String → Result)
    (hre : AgreesWithGoRegexp MatchString) (p s : String) (hp : isPlain p = true)
    (hs : p.data <+: s.data) :
    (LikeString (p ++ "%")).Matches MatchString s = (true, none) ∧
    (LikeString (p ++ "%")).MatchesOption MatchString (some s) = (true, none) := by
  have hmf : isMetaFree (p ++ "%") = true := by
    have h1 := isMetaFree_of_isPlain p hp
    have h2 : isMetaFree "%" = true := by decide
    simp only [isMetaFree, String.data_append, List.all_append, Bool.and_eq_true] at *
    exact ⟨h1, h2⟩
  obtain ⟨r, hr⟩ := hs
  have e0 : ("%" : String).data = ['%'] := rfl
  have e3 : tokOfChar '%' = Tok.dotStar := rfl
  have toks : (p ++ "%").data.map tokOfChar = p.data.map Tok.lit ++ [Tok.dotStar] := by
    simp [String.data_append, e0, map_tokOfChar_of_isPlain p hp, e3]
  have hm : matchAnywhere ((p ++ "%").data.map tokOfChar) s.data = true := by
    rw [toks, ← hr]
    apply matchAnywhere_of_matchHere
    rw [matchHere_lits_iff]
    exact ⟨r, rfl, starAny_of _ _ rfl⟩
  obtain ⟨h1, h2⟩ := likeString_matches_eq MatchString hre (p ++ "%") s hmf
  rw [h1, h2, hm]
  exact ⟨rfl, rfl⟩

/-- C19 on the criterion `orig%` and the candidate `originally`. -/
theorem like_trailing_percent_starts_with_witness :
    AgreesWithGoRegexp fragmentMatchString ∧ isPlain "orig" = true ∧
    "orig".data <+: "originally".data ∧
    (LikeString ("orig" ++ "%")).Matches fragmentMatchString "originally" = (true, none) :=
  ⟨fragmentMatchString_agrees, by decide, by decide,
    (like_trailing_percent_starts_with fragmentMatchString fragmentMatchString_agrees "orig"
      "originally" (by decide) (by decide)).1⟩

/-- C20: a Like criterion matches itself: for every criterion `c` without metacharacter,
wildcards allowed, `LikeString(c).Matches(c)` and `LikeString(c).MatchesOption(present(c))`
return `(true, nil)`. The engine is any one agreeing with Go's on the fragment. -/
theorem like_matches_itself (MatchString : String → String → Result)
    (hre : AgreesWithGoRegexp MatchString) (c : String) (hc : isMetaFree c = true) :
    (LikeString c).Matches MatchString c = (true, none) ∧
    (LikeString c).MatchesOption MatchString (some c) = (true, none) := by
  obtain ⟨h1, h2⟩ := likeString_matches_eq MatchString hre c c hc
  rw [h1, h2, matchAnywhere_of_matchHere _ _ (matchHere_self c.data)]
  exact ⟨rfl, rfl⟩

/-- C20 on the criteria `orig%`, `o%gi_al` and `original`. -/
theorem like_matches_itself_witness :
    AgreesWithGoRegexp fragmentMatchString ∧
    (LikeString "orig%").Matches fragmentMatchString "orig%" = (true, none) ∧
    (LikeString "o%gi_al").Matches fragmentMatchString "o%gi_al" = (true, none) ∧
    (LikeString "original").MatchesOption fragmentMatchString (some "original") =
      (true, none) :=
  ⟨fragmentMatchString_agrees,
    (like_matches_itself fragmentMatchString fragmentMatchString_agrees "orig%"
      (by decide)).1,
    (like_matches_itself fragmentMatchString fragmentMatchString_agrees "o%gi_al"
      (by decide)).1,
    (like_matches_itself fragmentMatchString fragmentMatchString_agrees "original"
      (by decide)).2⟩

/-- With every engine agreeing with Go's, the criterion `a%b` does not match the
candidate made of `a`, a newline and `b`, and the criterion `_` does not match the
candidate made of one newline. -/
theorem wildcards_skip_newline (MatchString : String → String → Result)
    (hre : AgreesWithGoRegexp MatchString) :
    (LikeString "a%b").Matches MatchString ("a" ++ String.singleton (Char.ofNat 10) ++ "b") =
      (false, none) ∧
    (LikeString "_").Matches MatchString (String.singleton (Char.ofNat 10)) =
      (false, none) := by
  constructor
  · rw [(likeString_matches_eq MatchString hre _ _ (by decide)).1]
    decide
  · rw [(likeString_matches_eq MatchString hre _ _ (by decide)).1]
    decide

/-! ## The conjunction of predicates -/

/-- The counted loop returns what `MatchAll` returns. -/
theorem matchAllCounted_fst (ms : List Matcher) : (MatchAllCounted ms).1 = MatchAll ms := by
  induction ms with
  | nil => rfl
  | cons m ms ih =>
    simp only [MatchAllCounted, MatchAll]
    cases hm : m.Match () with
    | none => rfl
    | some r =>
      simp only [Option.some_bind]
      split_ifs <;> simp [ih]

/-- A matcher evaluating to `(true, nil)` lets the loop go on. -/
theorem matchAll_cons_true (m : Matcher) (ms : List Matcher)
    (h : m.Match () = some (true, none)) : MatchAll (m :: ms) = MatchAll ms := by
  simp [MatchAll, h]

/-- A matcher evaluating to an error ends the loop with that error. -/
theorem matchAll_cons_error (m : Matcher) (ms : List Matcher) (b : Bool) (e : GoError)
    (h : m.Match () = some (b, some e)) : MatchAll (m :: ms) = some (false, some e) := by
  simp [MatchAll, h]

/-- A matcher evaluating to `(false, nil)` ends the loop with `(false, nil)`. -/
theorem matchAll_cons_false (m : Matcher) (ms : List Matcher)
    (h : m.Match () = some (false, none)) : MatchAll (m :: ms) = some (false, none) := by
  simp [MatchAll, h]

/-- Matchers evaluating to `(true, nil)` in front of a sequence do not change its
result. -/
theorem matchAll_append_of_all_true (xs ys : List Matcher)
    (h : ∀ m ∈ xs, m.Match () = some (true, none)) : MatchAll (xs ++ ys) = MatchAll ys := by
  induction xs with
  | nil => rfl
  | cons x xs ih =>
    have hx := h x (List.mem_cons_self x xs)
    have hxs : ∀ m ∈ xs, m.Match () = some (true, none) :=
      fun m hm => h m (List.mem_cons_of_mem x hm)
    rw [List.cons_append, matchAll_cons_true x _ hx, ih hxs]

/-- The loop returns `(true, nil)` exactly when every matcher evaluates to `(true, nil)`. -/
theorem matchAll_eq_true_iff (ms : List Matcher) :
    MatchAll ms = some (true, none) ↔ ∀ m ∈ ms, m.Match () = some (true, none) := by
  induction ms with
  | nil => simp [MatchAll]
  | cons m ms ih =>
    cases hm : m.Match () with
    | none => simp [MatchAll, hm]
    | some r =>
      rcases r with ⟨rb, re⟩
      cases re with
      | some e => simp [MatchAll, hm]
      | none =>
        cases rb with
        | false => simp [MatchAll, hm]
        | true => simp [MatchAll, hm, ih]

/-- A sequence whose loop does not return `(true, nil)` keeps its result when more
matchers follow. -/
theorem matchAll_append_of_not_true (xs ys : List Matcher)
    (h : MatchAll xs ≠ some (true, none)) : MatchAll (xs ++ ys) = MatchAll xs := by
  induction xs with
  | nil => exact absurd rfl h
  | cons m ms ih =>
    cases hm : m.Match () with
    | none => simp [MatchAll, hm]
    | some r =>
      rcases r with ⟨rb, re⟩
      cases re with
      | some e =>
        rw [List.cons_append, matchAll_cons_error m _ rb e hm, matchAll_cons_error m _ rb e hm]
      | none =>
        cases rb with
        | false =>
          rw [List.cons_append, matchAll_cons_false m _ hm, matchAll_cons_false m _ hm]
        | true =>
          rw [matchAll_cons_true m _ hm] at h
          rw [List.cons_append, matchAll_cons_true m _ hm, matchAll_cons_true m _ hm, ih h]

/-- C21: for every sequence of predicates, `MatchAll` returns `(true, nil)` exactly when
every predicate of the sequence evaluates to `(true, nil)`; the empty sequence gives
`(true, nil)`, and a sequence containing a predicate that evaluates to `(false, nil)`
never gives `true`, with or without an error. -/
theorem matchAll_true_iff (ms : List Matcher) :
    (MatchAll ms = some (true, none) ↔ ∀ m ∈ ms, m.Match () = some (true, none)) ∧
    MatchAll [] = some (true, none) ∧
    ((∃ m ∈ ms, m.Match () = some (false, none)) → ∀ e, MatchAll ms ≠ some (true, e)) := by
  refine ⟨matchAll_eq_true_iff ms, rfl, ?_⟩
  rintro ⟨m, hm, hf⟩ e
  cases e with
  | none =>
    intro h
    have := (matchAll_eq_true_iff ms).mp h m hm
    rw [hf] at this
    simp at this
  | some e1 =>
    intro h
    have := matchAll_err_false ms true e1 h
    simp at this

/-- C21 on the sequence of the test suite: an Exact query for 47 and an Exact query for
42, both bound to the value 47. -/
theorem matchAll_true_iff_witness :
    MatchAll [NewValueMatch (47 : Int) (Exact 47).AsRef, NewValueMatch (47 : Int)
      (Exact 42).AsRef] ≠ some (true, none) :=
  (matchAll_true_iff [NewValueMatch (47 : Int) (Exact 47).AsRef, NewValueMatch (47 : Int)
      (Exact 42).AsRef]).2.2
    ⟨NewValueMatch (47 : Int) (Exact 42).AsRef, by simp, by decide⟩ none

/-- After matchers evaluating to `(true, nil)`, a matcher that does not ends the counted
loop: the calls made are those on the first matchers and the one on it. -/
theorem matchAllCounted_stop (xs ys : List Matcher) (p : Matcher) (r : Result)
    (hxs : ∀ m ∈ xs, m.Match () = some (true, none)) (hp : p.Match () = some r)
    (hr : r ≠ (true, none)) : (MatchAllCounted (xs ++ p :: ys)).2 = xs.length + 1 := by
  induction xs with
  | nil =>
    rcases r with ⟨rb, re⟩
    cases re with
    | some e => simp [MatchAllCounted, hp]
    | none =>
      cases rb with
      | false => simp [MatchAllCounted, hp]
      | true => exact absurd rfl hr
  | cons x xs ih =>
    have hx : x.Match () = some (true, none) := hxs x (List.mem_cons_self x xs)
    have hrest : ∀ m ∈ xs, m.Match () = some (true, none) :=
      fun m hm => hxs m (List.mem_cons_of_mem x hm)
    simp [MatchAllCounted, hx, ih hrest]

/-- C22: `MatchAll` stops at the first predicate, from the left, that does not evaluate
to `(true, nil)`: after predicates `xs` that all evaluate to `(true, nil)`, a predicate
`p` evaluating to an error `e` makes it return `(false, e)`, and one evaluating to
`(false, nil)` makes it return `(false, nil)`, whatever the predicates `ys` that follow,
on which `Match` is not called: the calls made are those on `xs` and the one on `p`.
Hence `MatchAll([pError, pFalse])` returns the error of `pError` and
`MatchAll([pFalse, pError])` returns `(false, nil)`. -/
theorem matchAll_first_failure (xs ys : List Matcher) (p pError pFalse : Matcher) (b : Bool)
    (e : GoError) (hxs : ∀ m ∈ xs, m.Match () = some (true, none)) :
    (p.Match () = some (b, some e) →
      MatchAll (xs ++ [p] ++ ys) = some (false, some e) ∧
      (MatchAllCounted (xs ++ [p] ++ ys)).2 = xs.length + 1) ∧
    (p.Match () = some (false, none) →
      MatchAll (xs ++ [p] ++ ys) = some (false, none) ∧
      (MatchAllCounted (xs ++ [p] ++ ys)).2 = xs.length + 1) ∧
    (pError.Match () = some (b, some e) → pFalse.Match () = some (false, none) →
      MatchAll [pError, pFalse] = some (false, some e) ∧
      MatchAll [pFalse, pError] = some (false, none)) := by
  have shape : xs ++ [p] ++ ys = xs ++ p :: ys := by simp
  refine ⟨?_, ?_, ?_⟩
  · intro hp
    rw [shape]
    exact ⟨by rw [matchAll_append_of_all_true xs _ hxs, matchAll_cons_error p ys b e hp],
      matchAllCounted_stop xs ys p _ hxs hp (by simp)⟩
  · intro hp
    rw [shape]
    exact ⟨by rw [matchAll_append_of_all_true xs _ hxs, matchAll_cons_false p ys hp],
      matchAllCounted_stop xs ys p _ hxs hp (by simp)⟩
  · intro h1 h2
    exact ⟨matchAll_cons_error pError _ b e h1, matchAll_cons_false pFalse _ h2⟩

/-- C22 on predicates bound to the value 47: after an Exact query for 47, a generic Like
query ends the loop with its error and an Exact query for 42 ends it with `(false, nil)`,
in two calls, although the predicate that follows would end in a fatal fault. -/
theorem matchAll_first_failure_witness :
    MatchAll ([NewValueMatch (47 : Int) (Exact 47).AsRef] ++
      [NewValueMatch (47 : Int) (Like 47).AsRef] ++ [fatalMatcher]) =
        some (false, some (Errorf likeUnsupportedMsg)) ∧
    (MatchAllCounted ([NewValueMatch (47 : Int) (Exact 47).AsRef] ++
      [NewValueMatch (47 : Int) (Exact 42).AsRef] ++ [fatalMatcher])).2 = 2 :=
  ⟨((matchAll_first_failure [NewValueMatch (47 : Int) (Exact 47).AsRef] [fatalMatcher]
      (NewValueMatch (47 : Int) (Like 47).AsRef) fatalMatcher fatalMatcher false
      (Errorf likeUnsupportedMsg) (by simp; decide)).1 (by decide)).1,
    ((matchAll_first_failure [NewValueMatch (47 : Int) (Exact 47).AsRef] [fatalMatcher]
      (NewValueMatch (47 : Int) (Exact 42).AsRef) fatalMatcher fatalMatcher false
      (Errorf likeUnsupportedMsg) (by simp; decide)).2.1 (by decide)).2⟩

/-! ## Predicates -/

/-- C23: a predicate delegates to the optional entry point of its query: for every query
`q`, optional candidate `o` and value `v`, `NewMatch(o, q).Match()` is `q.MatchesOption(o)`
and `NewValueMatch(v, q).Match()` is `q.MatchesOption(present(v))`; so it is for the two
engines seen as queries. -/
theorem match_delegates {T : Type} [Comparable T] [Inhabited T]
    (MatchString : String → String → Result) (q : Query T) (o : Optional T) (v : T)
    (fq : FieldQuery T) (sq : StringQuery) (so : Optional String) (sv : String) :
    (NewMatch o q).Match () = q.MatchesOption o ∧
    (NewValueMatch v q).Match () = q.MatchesOption (NewOption v) ∧
    (Match.mk q o).Match = q.MatchesOption o ∧
    (NewMatch o fq.AsRef).Match () = fq.MatchesOption o ∧
    (NewValueMatch v fq.AsRef).Match () = fq.MatchesOption (some v) ∧
    (NewMatch so (sq.AsRef MatchString)).Match () =
      some (sq.MatchesOption MatchString so) ∧
    (NewValueMatch sv (sq.AsRef MatchString)).Match () =
      some (sq.MatchesOption MatchString (some sv)) :=
  ⟨rfl, rfl, rfl, rfl, rfl, rfl, rfl⟩

/-! ## Concatenation of sequences of predicates -/

/-- C27: `MatchAll(xs ++ ys)` is `MatchAll(ys)` when `MatchAll(xs)` is `(true, nil)`, and
`MatchAll(xs)` otherwise. -/
theorem matchAll_append (xs ys : List Matcher) :
    MatchAll (xs ++ ys) =
      if MatchAll xs = some (true, none) then MatchAll ys else MatchAll xs := by
  by_cases h : MatchAll xs = some (true, none)
  · rw [if_pos h, matchAll_append_of_all_true xs ys ((matchAll_eq_true_iff xs).mp h)]
  · rw [if_neg h, matchAll_append_of_not_true xs ys h]

/-! ## The unchecked unwrap and the placeholder values -/

/-- The generic `Matches` ends in a fatal fault exactly when the strategy is Exact, the
criterion is present and `==` panics on criterion and candidate. -/
theorem fieldQuery_matches_none_iff {T : Type} [Comparable T] [Inhabited T]
    (q : FieldQuery T) (v : T) :
    q.Matches v = none ↔
      q.criteria = MatchExact ∧ ∃ u, q.value = some u ∧ Comparable.goEq u v = none := by
  rcases q with ⟨s, c⟩
  by_cases h4 : s = MatchExact
  · subst h4
    cases c with
    | none => simp [FieldQuery.Matches, MatchExact, MatchAlways, MatchNone, MatchAny]
    | some u =>
      cases h : Comparable.goEq u v with
      | none => simp [FieldQuery.Matches, MatchExact, MatchAlways, MatchNone, MatchAny, h]
      | some same =>
        cases same <;>
          simp [FieldQuery.Matches, MatchExact, MatchAlways, MatchNone, MatchAny, h]
  · cases c <;> simp [FieldQuery.Matches, h4] <;> split_ifs <;> simp

/-- The generic `MatchesOption` ends in a fatal fault exactly when the strategy is Exact,
criterion and candidate are present and `==` panics on them. -/
theorem fieldQuery_matchesOption_none_iff {T : Type} [Comparable T] [Inhabited T]
    (q : FieldQuery T) (d : Optional T) :
    q.MatchesOption d = none ↔
      q.criteria = MatchExact ∧
        ∃ u w, q.value = some u ∧ d = some w ∧ Comparable.goEq u w = none := by
  rcases q with ⟨s, c⟩
  by_cases h4 : s = MatchExact
  · subst h4
    cases c with
    | none =>
      cases d <;>
        simp [FieldQuery.MatchesOption, MatchExact, MatchAlways, MatchNone, MatchAny]
    | some u =>
      cases d with
      | none => simp [FieldQuery.MatchesOption, MatchExact, MatchAlways, MatchNone, MatchAny]
      | some w =>
        cases h : Comparable.goEq u w with
        | none =>
          simp [FieldQuery.MatchesOption, MatchExact, MatchAlways, MatchNone, MatchAny, h]
        | some same =>
          cases same <;>
            simp [FieldQuery.MatchesOption, MatchExact, MatchAlways, MatchNone, MatchAny, h]
  · cases c <;> cases d <;> simp [FieldQuery.MatchesOption, h4] <;> split_ifs <;> simp

/-- C24, as the code has it: the unchecked unwrap, fatal on an absent value, is only
reached with a present criterion, and the results of `FieldQuery.Matches` and
`FieldQuery.MatchesOption` do not depend on the zero value of `T`, which stands for the
payload of an absent criterion and for the value left by the failed unwrap of an absent
candidate: these placeholders are never compared, and an Exact query whose criterion is
the zero value does not match an absent candidate. Both functions return normally for
every strategy, criterion and candidate but one case: with the strategy Exact and
criterion and candidate both present, they end in a fatal fault exactly when `==` panics
on the two values. So they are total on every type whose `==` never panics. -/
theorem fieldQuery_fatal_iff {T : Type} [cmp : Comparable T] (i1 i2 : Inhabited T)
    (q : FieldQuery T) (v : T) (d : Optional T) :
    Optional.UnsafeUnwrap (none : Optional T) = none ∧
    (@FieldQuery.Matches T cmp i1 q v = none ↔
      q.criteria = MatchExact ∧ ∃ u, q.value = some u ∧ Comparable.goEq u v = none) ∧
    (@FieldQuery.MatchesOption T cmp i1 q d = none ↔
      q.criteria = MatchExact ∧
        ∃ u w, q.value = some u ∧ d = some w ∧ Comparable.goEq u w = none) ∧
    ((∀ a b : T, Comparable.goEq a b ≠ none) →
      (∃ r, @FieldQuery.Matches T cmp i1 q v = some r) ∧
      (∃ r, @FieldQuery.MatchesOption T cmp i1 q d = some r)) ∧
    @FieldQuery.Matches T cmp i1 q v = @FieldQuery.Matches T cmp i2 q v ∧
    @FieldQuery.MatchesOption T cmp i1 q d = @FieldQuery.MatchesOption T cmp i2 q d ∧
    @FieldQuery.MatchesOption T cmp i1 (NewQuery MatchExact (some (@default T i1))) none =
      some (false, none) := by
  have m1 := @fieldQuery_matches_none_iff T cmp i1 q v
  have m2 := @fieldQuery_matchesOption_none_iff T cmp i1 q d
  refine ⟨rfl, m1, m2, ?_, ?_, ?_, ?_⟩
  · intro hne
    constructor
    · apply Option.ne_none_iff_exists'.mp
      intro h
      obtain ⟨-, u, -, hu⟩ := m1.mp h
      exact hne u v hu
    · apply Option.ne_none_iff_exists'.mp
      intro h
      obtain ⟨-, u, w, -, -, hu⟩ := m2.mp h
      exact hne u w hu
  · rcases q with ⟨s, c⟩
    cases c <;> simp [FieldQuery.Matches]
  · rcases q with ⟨s, c⟩
    cases c <;> cases d <;> simp [FieldQuery.MatchesOption]
  · simp [FieldQuery.MatchesOption, NewQuery, MatchExact, MatchAlways, MatchNone, MatchAny]

/-- C24 on integers, where `==` never panics: `Exact(47).Matches(47)` and
`Exact(47).MatchesOption(absent)` return normally. -/
theorem fieldQuery_fatal_iff_witness :
    (∀ a b : Int, Comparable.goEq a b ≠ none) ∧
    (∃ r, (Exact (47 : Int)).Matches 47 = some r) ∧
    (∃ r, (Exact (47 : Int)).MatchesOption none = some r) :=
  ⟨fun a b => by simp,
    (fieldQuery_fatal_iff (inferInstance : Inhabited Int) (inferInstance : Inhabited Int)
      (Exact (47 : Int)) 47 none).2.2.2.1 (fun a b => by simp)⟩

/-- C24 fails as stated for the comparable type `any`: with the strategy Exact and
criterion and candidate both holding the slice `[1]`, the comparison panics, and neither
`Matches` nor `MatchesOption` returns. -/
theorem fieldQuery_fatal_on_slices :
    (Exact (AnyValue.ints [1])).Matches (AnyValue.ints [1]) = none ∧
    (Exact (AnyValue.ints [1])).MatchesOption (some (AnyValue.ints [1])) = none := by
  constructor
  · exact (fieldQuery_matches_none_iff _ _).mpr ⟨rfl, AnyValue.ints [1], rfl, rfl⟩
  · exact (fieldQuery_matchesOption_none_iff _ _).mpr
      ⟨rfl, AnyValue.ints [1], AnyValue.ints [1], rfl, rfl, rfl⟩

/-! ## The two entry points, the two engines -/

/-- The strategies None and Any are distinct values. -/
theorem matchNone_ne_matchAny : MatchNone ≠ MatchAny ∧ MatchAny ≠ MatchNone := by decide

/-- C25: the two entry points of each engine agree on present candidates: for every
strategy value, named or not, every optional criterion and every value `v`, `Matches(v)`
returns the same result as `MatchesOption(present(v))`, in the generic engine and in the
string engine. -/
theorem matches_eq_matchesOption_present {T : Type} [Comparable T] [Inhabited T]
    (MatchString : String → String → Result) (s : MatchType) (c : Optional T) (v : T)
    (cs : Optional String) (sv : String) :
    (NewQuery s c).Matches v = (NewQuery s c).MatchesOption (NewOption v) ∧
    (NewStringQuery s cs).Matches MatchString sv =
      (NewStringQuery s cs).MatchesOption MatchString (NewOption sv) := by
  constructor
  · cases c <;> simp [FieldQuery.Matches, FieldQuery.MatchesOption, NewQuery, NewOption] <;>
      split_ifs <;> simp_all [matchNone_ne_matchAny.1, matchNone_ne_matchAny.2]
  · cases cs <;>
      simp [StringQuery.Matches, StringQuery.MatchesOption, NewStringQuery, NewOption]

/-- The generic engine on strings returns what the string engine returns, for every
strategy value other than `MatchLike`. -/
theorem fieldQuery_string_eq (MatchString : String → String → Result) (s : MatchType)
    (hs : s ≠ MatchLike) (c d : Optional String) (w : String) :
    (NewQuery s c).Matches w = some ((NewStringQuery s c).Matches MatchString w) ∧
    (NewQuery s c).MatchesOption d =
      some ((NewStringQuery s c).MatchesOption MatchString d) := by
  constructor
  · cases c <;> simp [FieldQuery.Matches, StringQuery.Matches, NewQuery, NewStringQuery, hs] <;>
      split_ifs <;> simp_all [matchNone_ne_matchAny.1, matchNone_ne_matchAny.2]
  · cases c <;> cases d <;>
      simp [FieldQuery.MatchesOption, StringQuery.MatchesOption, NewQuery, NewStringQuery,
        hs] <;>
      split_ifs <;> simp_all [matchNone_ne_matchAny.1, matchNone_ne_matchAny.2]

/-- C26: the string engine is the generic engine plus Like: for every strategy value
other than `MatchLike`, named or not, every optional string criterion, every string `w`
and every optional string candidate `d`, the generic engine on strings returns normally,
with the same boolean as the string engine and an error exactly when the string engine
returns one, from `Matches(w)` and from `MatchesOption(d)`; the two results are in fact
equal. -/
theorem stringQuery_extends_fieldQuery (MatchString : String → String → Result)
    (s : MatchType) (hs : s ≠ MatchLike) (c d : Optional String) (w : String) :
    (∃ r, (NewQuery s c).Matches w = some r ∧
      r.1 = ((NewStringQuery s c).Matches MatchString w).1 ∧
      (r.2 = none ↔ ((NewStringQuery s c).Matches MatchString w).2 = none) ∧
      r = (NewStringQuery s c).Matches MatchString w) ∧
    (∃ r, (NewQuery s c).MatchesOption d = some r ∧
      r.1 = ((NewStringQuery s c).MatchesOption MatchString d).1 ∧
      (r.2 = none ↔ ((NewStringQuery s c).MatchesOption MatchString d).2 = none) ∧
      r = (NewStringQuery s c).MatchesOption MatchString d) := by
  obtain ⟨h1, h2⟩ := fieldQuery_string_eq MatchString s hs c d w
  exact ⟨⟨_, h1, rfl, Iff.rfl, rfl⟩, ⟨_, h2, rfl, Iff.rfl, rfl⟩⟩

/-- C26 on the strategy None with a present criterion and an absent candidate, where both
engines return `(true, nil)`. -/
theorem stringQuery_extends_fieldQuery_witness :
    MatchNone ≠ MatchLike ∧
    ∃ r, (NewQuery MatchNone (some "a")).MatchesOption none = some r ∧
      r.1 = ((NewStringQuery MatchNone (some "a")).MatchesOption fragmentMatchString none).1 ∧
      (r.2 = none ↔
        ((NewStringQuery MatchNone (some "a")).MatchesOption fragmentMatchString none).2 =
          none) ∧
      r = (NewStringQuery MatchNone (some "a")).MatchesOption fragmentMatchString none :=
  ⟨by decide,
    (stringQuery_extends_fieldQuery fragmentMatchString MatchNone (by decide) (some "a") none
      "").2⟩

/-! ## Symmetry of Exact -/

/-- C28: Exact matching on optionals is symmetric: for both engines and all optional
values `a` and `b`, the Exact query with criterion `a` applied by `MatchesOption` to the
candidate `b` returns what the Exact query with criterion `b` returns on the candidate
`a`. -/
theorem exact_symmetric {T : Type} [Comparable T] [Inhabited T]
    (MatchString : String → String → Result) (a b : Optional T) (sa sb : Optional String) :
    (NewQuery MatchExact a).MatchesOption b = (NewQuery MatchExact b).MatchesOption a ∧
    (NewStringQuery MatchExact sa).MatchesOption MatchString sb =
      (NewStringQuery MatchExact sb).MatchesOption MatchString sa := by
  constructor
  · cases a with
    | none =>
      cases b <;>
        simp [FieldQuery.MatchesOption, NewQuery, MatchExact, MatchAlways, MatchNone, MatchAny]
    | some x =>
      cases b with
      | none =>
        simp [FieldQuery.MatchesOption, NewQuery, MatchExact, MatchAlways, MatchNone, MatchAny]
      | some y =>
        rw [(exact_matchesOption_cases x y).2.2.2, (exact_matchesOption_cases y x).2.2.2,
          Comparable.goEq_symm x y]
  · cases sa with
    | none =>
      cases sb <;>
        simp [StringQuery.MatchesOption, NewStringQuery, MatchExact, MatchAlways, MatchNone,
          MatchAny]
    | some x =>
      cases sb with
      | none =>
        simp [StringQuery.MatchesOption, NewStringQuery, MatchExact, MatchAlways, MatchNone,
          MatchAny]
      | some y =>
        by_cases h : x = y
        · subst h
          rfl
        · simp [StringQuery.MatchesOption, NewStringQuery, MatchExact, MatchAlways, MatchNone,
            MatchAny, h, Ne.symm h]

end Smartquery
